import Mathlib

/-!
# external-ambassador: package `sync`

A shallow embedding of `sync/sync.go` (`Syncer`) and `sync/watch.go` (`Watcher`).

* The Kubernetes client is a record of responses (`Client`): what `Namespaces().List`,
  `Services(ns).List` and `Services(ns).Update` answer.
* `yaml.Unmarshal`, the type `AmbassadorConfig` with its method `IsMapping` and field `Host`,
  and the two annotation-key constants are declared outside `sync.go` and `watch.go`; they are
  parameters (`Decoder`, `Keys`).
* A Go `map[string]string` is a key-unique association list, `nil` being `none`.
* The range variable of a `for ... range` statement is one variable per statement (the language
  rule for this code base, which predates per-iteration variables), so a pointer taken to it
  observes every later assignment made by the range clause.
* The background goroutines are not interleaved: `loop` is represented by its timer branch
  (`Syncer.tick`), and `Stop` runs the acknowledged shutdown to its end.
-/

namespace ExternalAmbassador

/-! ## Data model -/

/-- A non-nil Go `map[string]string`. -/
abbrev AnnMap := AList (fun _ : String => String)

/-- Equality of maps is decided on their entries. -/
instance instDecidableEqAnnMap : DecidableEq AnnMap := fun a b =>
  decidable_of_iff (a.entries = b.entries) ⟨AList.ext, fun h => h ▸ rfl⟩

/-- The part of `v1.Service` that package `sync` reads and writes: `ObjectMeta.Name` and
`ObjectMeta.Annotations` (`none` is the nil map). -/
structure Service where
  name : String
  annotations : Option AnnMap
deriving DecidableEq

/-- Errors. `ErrAlreadyRunning` and `ErrNotRunning` are the package-level error values,
`errorf` is a `fmt.Errorf` value, `api` is an error returned by the Kubernetes client. -/
inductive Error where
  | ErrAlreadyRunning
  | ErrNotRunning
  | errorf (msg : String)
  | api (msg : String)
deriving DecidableEq

/-- The constants `AmbassadorAnnotationKey` and `ExternalDNSAnnotationKey`. -/
structure Keys where
  AmbassadorAnnotationKey : String
  ExternalDNSAnnotationKey : String

/-- The decoding collaborator of `Sync`. `Unmarshal value config` is
`yaml.Unmarshal([]byte(value), &config)`: it returns the contents of `config` after the call
(the target is written in place, so the previous contents are an input) and whether the
returned `err` is non-nil. -/
structure Decoder where
  AmbassadorConfig : Type
  zero : AmbassadorConfig
  Unmarshal : String → AmbassadorConfig → AmbassadorConfig × Bool
  IsMapping : AmbassadorConfig → Bool
  Host : AmbassadorConfig → String

/-- The Kubernetes API as `Sync` sees it: the answer of `Namespaces().List`, of
`Services(ns).List`, and the error (if any) answered by `Services(ns).Update(obj)`. -/
structure Client where
  listNamespaces : Except Error (List String)
  listServices : String → Except Error (List Service)
  update : String → Service → Option Error

/-- How a call ends: it returns, it panics, or it never returns. -/
inductive Exec (α : Type) where
  | ret (a : α)
  | panic (msg : String)
  | blocked
deriving DecidableEq

/-- A Go channel value held in a struct field. -/
inductive Chan where
  | nil
  | made
  | closed
deriving DecidableEq

/-- The `Syncer` struct (the `client` pointer is passed to `Sync` as an argument). -/
structure Syncer where
  serviceNamespace : String
  serviceName : String
  running : Bool
  needsSync : Bool
  stopChan : Chan
  stoppedChan : Chan
deriving DecidableEq

/-- `NewSyncer`: every field not named in the literal has its zero value. -/
def NewSyncer (serviceNamespace serviceName : String) : Syncer :=
  { serviceNamespace := serviceNamespace, serviceName := serviceName,
    running := false, needsSync := false, stopChan := Chan.nil, stoppedChan := Chan.nil }

/-! ## `Syncer.Sync`: the scan (lines 99-137) -/

/-- `funk.ContainsString`. -/
def ContainsString (s : List String) (v : String) : Bool := decide (v ∈ s)

/-- Local state of the scan: `hosts`, `config` (declared once, before both loops), the service
seen through the pointer `ambassadorService` (`none` while the pointer is nil), and the hosts
reported by the debug line "Service %s.%s has host: %s", in order. -/
structure ScanState (d : Decoder) where
  hosts : List String
  config : d.AmbassadorConfig
  ambassadorService : Option Service
  reported : List String

/-- Body of `for key, value := range service.Annotations` (lines 114-134). -/
def scanEntry (d : Decoder) (keys : Keys) (st : ScanState d) (key value : String) :
    ScanState d :=
  if key = keys.AmbassadorAnnotationKey then
    let r := d.Unmarshal value st.config
    if r.2 then
      { st with config := r.1 }
    else if d.IsMapping r.1 then
      if d.Host r.1 ≠ "" then
        { st with
          config := r.1
          reported := st.reported ++ [d.Host r.1]
          hosts := if ContainsString st.hosts (d.Host r.1) then st.hosts
                   else st.hosts ++ [d.Host r.1] }
      else
        { st with config := r.1 }
    else
      { st with config := r.1 }
  else
    st

/-- The entries a `range` over a map visits: none for the nil map. -/
def rangeMap (m : Option AnnMap) : List (Sigma fun _ : String => String) :=
  match m with
  | none => []
  | some m => m.entries

/-- The loop `for key, value := range service.Annotations` (lines 113-135). -/
def scanAnnotations (d : Decoder) (keys : Keys) (st : ScanState d) (m : Option AnnMap) :
    ScanState d :=
  (rangeMap m).foldl (fun acc e => scanEntry d keys acc e.1 e.2) st

/-- One iteration of `for _, service := range services.Items` (lines 109-136). The flag says
whether `ambassadorService` holds the address of this statement's variable `service`: the range
clause first stores the item in that variable, which a pointer to it observes. -/
def scanService (d : Decoder) (keys : Keys) (s : Syncer) (namespaceName : String)
    (acc : ScanState d × Bool) (item : Service) : ScanState d × Bool :=
  let st := if acc.2 then { acc.1 with ambassadorService := some item } else acc.1
  let matched : Bool := namespaceName = s.serviceNamespace ∧ item.name = s.serviceName
  let st := if matched then { st with ambassadorService := some item } else st
  (scanAnnotations d keys st item.annotations, acc.2 || matched)

/-- The loop over `services.Items` of one namespace; its variable `service` is fresh, so the
pointer does not alias it on entry. -/
def scanItems (d : Decoder) (keys : Keys) (s : Syncer) (namespaceName : String)
    (st : ScanState d) (items : List Service) : ScanState d :=
  (items.foldl (scanService d keys s namespaceName) (st, false)).1

/-- The loop `for _, namespace := range namespaces.Items` (lines 104-137); a failing
`Services(namespace.Name).List` ends the pass. -/
def scanNamespaces (d : Decoder) (keys : Keys) (s : Syncer) (c : Client) :
    List String → ScanState d → Except Error (ScanState d)
  | [], st => Except.ok st
  | n :: rest, st =>
    match c.listServices n with
    | Except.error e => Except.error e
    | Except.ok items => scanNamespaces d keys s c rest (scanItems d keys s n st items)

/-- State at line 99-103, before the first namespace is visited. -/
def scanInit (d : Decoder) : ScanState d :=
  { hosts := [], config := d.zero, ambassadorService := none, reported := [] }

/-! ## `Syncer.Sync`: AggregateValue (lines 139-146) -/

/-- Go's `<` on strings (byte-wise lexicographic; on UTF-8 this is the order of the code-point
sequences). -/
def stringLess (a b : String) : Bool := decide (a.data < b.data)

/-- `sort.Strings`: increasing order under `<`. -/
def sortStrings (l : List String) : List String :=
  List.insertionSort (fun a b => stringLess b a = false) l

/-- `strings.Join(hosts, ",")`. -/
def joinComma (l : List String) : String := String.intercalate "," l

/-- Lines 139-146: `hosts` after the in-place sort, and `dnsValue`. -/
def aggregate (hosts : List String) : List String × String :=
  if hosts.length > 0 then (sortStrings hosts, joinComma (sortStrings hosts))
  else (hosts, "")

/-! ## `Syncer.Sync`: the diff (lines 152-169) -/

/-- Locals of the diff: the designated service's map, `needsUpdate`, `foundDNS`. -/
structure DiffState where
  annotations : Option AnnMap
  needsUpdate : Bool
  foundDNS : Bool
deriving DecidableEq

/-- `m[k] = v`: a panic on the nil map. -/
def mapAssign (m : Option AnnMap) (k v : String) : Exec (Option AnnMap) :=
  match m with
  | none => Exec.panic "assignment to entry in nil map"
  | some m => Exec.ret (some (m.insert k v))

/-- `delete(m, k)`: a no-op on the nil map. -/
def mapDelete (m : Option AnnMap) (k : String) : Option AnnMap :=
  m.map (fun m => m.erase k)

/-- `v, ok := m[k]`: the binding of `k`, none on the nil map. -/
def mapLookup (m : Option AnnMap) (k : String) : Option String :=
  m.bind (AList.lookup k)

/-- Body of `for key, value := range ambassadorService.Annotations` (lines 155-161). The map
being ranged over has the visited entry, so it is not nil and the assignment stores. -/
def diffEntry (keys : Keys) (dnsValue : String) (st : DiffState) (key value : String) :
    DiffState :=
  if key = keys.ExternalDNSAnnotationKey then
    if value ≠ dnsValue then
      { annotations := st.annotations.map (fun m => m.insert key dnsValue)
        needsUpdate := true
        foundDNS := true }
    else
      { st with foundDNS := true }
  else
    st

/-- Lines 152-162. -/
def diffLoop (keys : Keys) (dnsValue : String) (m : Option AnnMap) : DiffState :=
  (rangeMap m).foldl (fun acc e => diffEntry keys dnsValue acc e.1 e.2)
    { annotations := m, needsUpdate := false, foundDNS := false }

/-- Lines 152-169: the designated service's map after the diff, and `needsUpdate`. -/
def diffStep (keys : Keys) (m : Option AnnMap) (dnsValue : String) :
    Exec (Option AnnMap × Bool) :=
  let st := diffLoop keys dnsValue m
  if dnsValue ≠ "" ∧ st.foundDNS = false then
    match mapAssign st.annotations keys.ExternalDNSAnnotationKey dnsValue with
    | Exec.ret m' => Exec.ret (m', true)
    | Exec.panic msg => Exec.panic msg
    | Exec.blocked => Exec.blocked
  else if dnsValue = "" ∧ st.foundDNS = true then
    Exec.ret (mapDelete st.annotations keys.ExternalDNSAnnotationKey, true)
  else
    Exec.ret (st.annotations, st.needsUpdate)

/-! ## `Syncer.Sync` -/

/-- What a returning `Sync` leaves behind: the returned slice (a nil slice and an empty slice
are both `[]`), the returned error, and the `Update` calls it issued (namespace and object). -/
structure SyncReturn where
  hosts : List String
  err : Option Error
  updates : List (String × Service)
deriving DecidableEq

/-- The error of line 149. -/
def errNotFound : Error :=
  Error.errorf "Failed to find ambassador service to update external-dns annotation on"

/-- `Syncer.Sync`. -/
def Sync (d : Decoder) (keys : Keys) (s : Syncer) (c : Client) : Exec SyncReturn :=
  match c.listNamespaces with
  | Except.error e => Exec.ret { hosts := [], err := some e, updates := [] }
  | Except.ok namespaces =>
    match scanNamespaces d keys s c namespaces (scanInit d) with
    | Except.error e => Exec.ret { hosts := [], err := some e, updates := [] }
    | Except.ok st =>
      let hosts := (aggregate st.hosts).1
      let dnsValue := (aggregate st.hosts).2
      match st.ambassadorService with
      | none => Exec.ret { hosts := hosts, err := some errNotFound, updates := [] }
      | some ambassadorService =>
        match diffStep keys ambassadorService.annotations dnsValue with
        | Exec.panic msg => Exec.panic msg
        | Exec.blocked => Exec.blocked
        | Exec.ret (annotations, needsUpdate) =>
          if needsUpdate then
            let obj : Service := { ambassadorService with annotations := annotations }
            match c.update s.serviceNamespace obj with
            | some e =>
              Exec.ret { hosts := hosts, err := some e, updates := [(s.serviceNamespace, obj)] }
            | none =>
              Exec.ret { hosts := hosts, err := none, updates := [(s.serviceNamespace, obj)] }
          else
            Exec.ret { hosts := hosts, err := none, updates := [] }

/-! ## The tick loop (lines 184-210) and the pending flag -/

/-- `Syncer.TriggerSync`. -/
def Syncer.TriggerSync (s : Syncer) : Syncer := { s with needsSync := true }

/-- `Syncer.IsRunning`. -/
def Syncer.IsRunning (s : Syncer) : Bool := s.running

/-- The branch `case <-time.After(4 * time.Second)` of `loop` (lines 192-207), run against the
cluster as it answers at that moment: the `Syncer` afterwards and the results of the `Sync`
calls the branch made. A panic in `Sync` is not recovered. -/
def Syncer.tick (d : Decoder) (keys : Keys) (s : Syncer) (c : Client) :
    Exec (Syncer × List SyncReturn) :=
  if s.needsSync then
    match Sync d keys s c with
    | Exec.panic msg => Exec.panic msg
    | Exec.blocked => Exec.blocked
    | Exec.ret r =>
      match r.err with
      | some _ => Exec.ret (s, [r])
      | none => Exec.ret ({ s with needsSync := false }, [r])
  else
    Exec.ret (s, [])

/-- Consecutive timer fires, one per listed cluster answer, with no call from outside in
between; the `Sync` results of all of them, in order. -/
def Syncer.ticks (d : Decoder) (keys : Keys) : Syncer → List Client →
    Exec (Syncer × List SyncReturn)
  | s, [] => Exec.ret (s, [])
  | s, c :: cs =>
    match Syncer.tick d keys s c with
    | Exec.panic msg => Exec.panic msg
    | Exec.blocked => Exec.blocked
    | Exec.ret (s1, passes) =>
      match Syncer.ticks d keys s1 cs with
      | Exec.panic msg => Exec.panic msg
      | Exec.blocked => Exec.blocked
      | Exec.ret (s2, later) => Exec.ret (s2, passes ++ later)

/-! ## Lifecycle of `Syncer` and `Watcher` -/

/-- What a lifecycle call does besides assigning fields. -/
inductive Effect where
  | make (field : String)
  | close (field : String)
  | receive (field : String)
  | spawn (fn : String)
deriving DecidableEq

/-- `Syncer.Start` (lines 60-70): state afterwards, returned error, effects. -/
def Syncer.Start (s : Syncer) : Syncer × Option Error × List Effect :=
  if s.running then
    (s, some Error.ErrAlreadyRunning, [])
  else
    ({ s with running := true, stopChan := Chan.made, stoppedChan := Chan.made }, none,
      [Effect.make "s.stopChan", Effect.make "s.stoppedChan", Effect.spawn "s.loop"])

/-- `Syncer.Stop` (lines 73-82). Closing a nil or closed channel panics. After
`close(s.stopChan)` the goroutine started by `Start` leaves `loop` and its deferred
`close(s.stoppedChan)` releases the receive; a receive from a nil channel never returns. -/
def Syncer.Stop (s : Syncer) : Exec (Syncer × Option Error × List Effect) :=
  if !s.running then
    Exec.ret (s, some Error.ErrNotRunning, [])
  else
    match s.stopChan with
    | Chan.nil => Exec.panic "close of nil channel"
    | Chan.closed => Exec.panic "close of closed channel"
    | Chan.made =>
      match s.stoppedChan with
      | Chan.nil => Exec.blocked
      | _ =>
        Exec.ret ({ s with running := false, stopChan := Chan.closed, stoppedChan := Chan.closed },
          none, [Effect.close "s.stopChan", Effect.receive "s.stoppedChan"])

/-- The `Watcher` struct (the `client` pointer carries no state of its own). -/
structure Watcher where
  syncer : Syncer
  running : Bool
  stopChan : Chan
  stoppedChan : Chan
deriving DecidableEq

/-- `NewWatcher`, when `kube.NewForConfig` succeeds. -/
def NewWatcher (serviceNamespace serviceName : String) : Watcher :=
  { syncer := NewSyncer serviceNamespace serviceName, running := false,
    stopChan := Chan.nil, stoppedChan := Chan.nil }

/-- `Watcher.IsRunning`. -/
def Watcher.IsRunning (w : Watcher) : Bool := w.running

/-- `Watcher.Start` (lines 57-94). The deferred `close(w.stoppedChan)` runs when `Start`
returns, after the informer goroutine has been started. -/
def Watcher.Start (w : Watcher) : Watcher × Option Error × List Effect :=
  if w.running then
    (w, some Error.ErrAlreadyRunning, [])
  else
    match w.syncer.Start with
    | (s1, some e, effects) => ({ w with syncer := s1 }, some e, effects)
    | (s1, none, effects) =>
      ({ syncer := s1, running := true, stopChan := Chan.made, stoppedChan := Chan.closed }, none,
        effects ++ [Effect.make "w.stopChan", Effect.make "w.stoppedChan",
          Effect.spawn "controller.Run", Effect.close "w.stoppedChan"])

/-- `Watcher.Stop` (lines 97-108). The receive returns at once on a closed channel; nothing else
closes `w.stoppedChan`. -/
def Watcher.Stop (w : Watcher) : Exec (Watcher × Option Error × List Effect) :=
  if !w.running then
    Exec.ret (w, some Error.ErrNotRunning, [])
  else
    match w.syncer.Stop with
    | Exec.panic msg => Exec.panic msg
    | Exec.blocked => Exec.blocked
    | Exec.ret (s1, some e, effects) => Exec.ret ({ w with syncer := s1 }, some e, effects)
    | Exec.ret (s1, none, effects) =>
      match w.stopChan with
      | Chan.nil => Exec.panic "close of nil channel"
      | Chan.closed => Exec.panic "close of closed channel"
      | Chan.made =>
        match w.stoppedChan with
        | Chan.closed =>
          Exec.ret ({ w with syncer := s1, stopChan := Chan.closed }, none,
            effects ++ [Effect.close "w.stopChan", Effect.receive "w.stoppedChan"])
        | _ => Exec.blocked

/-! ## The cluster behind the client -/

/-- The store accepting `Services(ns).Update(obj)`: `obj` takes the place of the stored service of
the same name in namespace `ns`; later listings answer accordingly. -/
def Client.applyUpdate (c : Client) (ns : String) (obj : Service) : Client :=
  { c with
    listServices := fun n =>
      if n = ns then
        (c.listServices n).map (fun items => items.map (fun x => if x.name = obj.name then obj else x))
      else c.listServices n }

/-- The cluster after a returned `Sync`: every `Update` it issued that was answered without error
has been applied. -/
def Client.afterSync (c : Client) (r : SyncReturn) : Client :=
  r.updates.foldl (fun acc u => if (c.update u.1 u.2).isNone then acc.applyUpdate u.1 u.2 else acc) c

/-- Service names are unique inside each namespace listing (a guarantee of the store). -/
def Client.UniqueNames (c : Client) : Prop :=
  ∀ n items, c.listServices n = Except.ok items → (items.map Service.name).Nodup

/-! ## A sample decoder for concrete inputs -/

/-- A configuration with the two fields `Sync` depends on. -/
structure FlatConfig where
  kind : String
  host : String
deriving DecidableEq

/-- Split a payload into its lines. -/
def splitLines : List Char → List (List Char)
  | [] => [[]]
  | ch :: rest =>
    if ch = Char.ofNat 10 then [] :: splitLines rest
    else
      match splitLines rest with
      | [] => [[ch]]
      | l :: ls => (ch :: l) :: ls

/-- Split a line `key: value` at its first colon; `none` when there is no colon. -/
def splitField : List Char → Option (List Char × List Char)
  | [] => none
  | ch :: rest =>
    if ch = ':' then some ([], rest.dropWhile (fun x => x = ' '))
    else
      match splitField rest with
      | none => none
      | some (k, v) => some (ch :: k, v)

/-- Store one line into the configuration: `kind` and `host` are kept, other fields are ignored,
an empty line or a document marker is skipped, anything else is a decoding error. -/
def flatLine (acc : FlatConfig × Bool) (line : List Char) : FlatConfig × Bool :=
  if line = [] ∨ line = "---".data then acc
  else
    match splitField line with
    | none => (acc.1, true)
    | some (k, v) =>
      if k = "kind".data then ({ acc.1 with kind := String.mk v }, acc.2)
      else if k = "host".data then ({ acc.1 with host := String.mk v }, acc.2)
      else acc

/-- Modelled from the spec: `AmbassadorConfig` and `IsMapping` are declared in a file of package
`sync` that is not among the sources, and the source annotation is described as a structured
payload with at least a string field `host`. This sample reads a payload of `key: value` lines
into the fields `kind` and `host`, leaving a field untouched when its line is absent, and takes
`IsMapping` to be `kind == "Mapping"`. It is used at concrete inputs only; the general theorems
below quantify over the decoder. -/
def flatDecoder : Decoder :=
  { AmbassadorConfig := FlatConfig
    zero := { kind := "", host := "" }
    Unmarshal := fun value config => (splitLines value.data).foldl flatLine (config, false)
    IsMapping := fun config => config.kind = "Mapping"
    Host := fun config => config.host }

/-- Annotation keys used at concrete inputs. -/
def sampleKeys : Keys :=
  { AmbassadorAnnotationKey := "getambassador.io/config"
    ExternalDNSAnnotationKey := "external-dns.alpha.kubernetes.io/hostname" }

/-- A client over a fixed cluster: listed namespaces with their services; every call succeeds. -/
def staticClient (cluster : List (String × List Service)) : Client :=
  { listNamespaces := Except.ok (cluster.map Prod.fst)
    listServices := fun n => Except.ok ((cluster.lookup n).getD [])
    update := fun _ _ => none }

/-- A payload declaring a mapping for `host`. -/
def mappingPayload (host : String) : String :=
  "---\napiVersion: ambassador/v0\nkind: Mapping\nname: web\nprefix: /\nservice: web\nhost: " ++ host

/-- A service whose only annotation is a mapping for `host`. -/
def mappingService (name host : String) : Service :=
  { name := name
    annotations := some (AList.singleton sampleKeys.AmbassadorAnnotationKey (mappingPayload host)) }

/-! ## Auxiliary notions used in the statements -/

/-- The reported hosts, collected the way lines 125-127 collect them: appended unless already
contained. -/
def collectHosts (reported : List String) : List String :=
  reported.foldl (fun acc h => if ContainsString acc h then acc else acc ++ [h]) []

/-- What the scan maintains: `hosts` is the collection of the reported hosts, none of which is
empty. -/
def ScanInv {d : Decoder} (st : ScanState d) : Prop :=
  st.hosts = collectHosts st.reported ∧ ∀ h ∈ st.reported, h ≠ ""

/-- The host `h` is declared on a scanned service: some service listed in one of the
namespaces carries the source annotation, and decoding its value (into a configuration with
some earlier contents) succeeds and yields a mapping whose `Host` is `h`. -/
def Declared (d : Decoder) (keys : Keys) (c : Client) (namespaces : List String)
    (h : String) : Prop :=
  ∃ n ∈ namespaces, ∃ items, c.listServices n = Except.ok items ∧
    ∃ x ∈ items, ∃ (value : String) (config : d.AmbassadorConfig),
      mapLookup x.annotations keys.AmbassadorAnnotationKey = some value ∧
      (d.Unmarshal value config).2 = false ∧
      d.IsMapping (d.Unmarshal value config).1 = true ∧
      d.Host (d.Unmarshal value config).1 = h

/-- The host a payload declares by itself: decoded into a configuration that holds nothing yet,
it is a mapping with a non-empty `Host`. -/
def decodedHost (d : Decoder) (value : String) : Option String :=
  if (d.Unmarshal value d.zero).2 = false ∧ d.IsMapping (d.Unmarshal value d.zero).1 = true ∧
      d.Host (d.Unmarshal value d.zero).1 ≠ "" then
    some (d.Host (d.Unmarshal value d.zero).1)
  else none

/-- The host discovered on one service: the host its own source annotation declares. -/
def declaredHost (d : Decoder) (keys : Keys) (x : Service) : Option String :=
  (mapLookup x.annotations keys.AmbassadorAnnotationKey).bind (decodedHost d)

/-- The claim's "non-empty host values discovered on the scanned services": for every listed
namespace and every service listed in it, the host that service declares, in listing order. -/
def discoveredHosts (d : Decoder) (keys : Keys) (c : Client) (namespaces : List String) :
    List String :=
  namespaces.flatMap (fun n =>
    match c.listServices n with
    | Except.ok items => items.filterMap (declaredHost d keys)
    | Except.error _ => [])

/-- A decoder whose result does not depend on what the target held before the call. -/
def Decoder.Fresh (d : Decoder) : Prop :=
  ∀ (value : String) (config : d.AmbassadorConfig),
    d.Unmarshal value config = d.Unmarshal value d.zero

/-! ## Concrete scenarios -/

/-- The syncer of the concrete scenarios: the designated service is `default/ambassador`. -/
def sampleSyncer : Syncer := NewSyncer "default" "ambassador"

/-- One namespace whose services declare the hosts "b", "a", "a", "c", listed before the
designated service. -/
def clusterBAAC : Client :=
  staticClient [("default",
    [mappingService "web-b" "b", mappingService "web-a" "a", mappingService "web-a2" "a",
     mappingService "web-c" "c", { name := "ambassador", annotations := some ∅ }])]

/-- The designated service is the only service and carries the target annotation with the empty
string as its value; no service declares a host. -/
def clusterEmptyValue : Client :=
  staticClient [("default",
    [{ name := "ambassador"
       annotations := some (AList.singleton sampleKeys.ExternalDNSAnnotationKey "") }])]

/-- The designated service is the only service other than one declaring the host
"a.example.com", and its target annotation already has that value. -/
def clusterSettled : Client :=
  staticClient [("default",
    [mappingService "web" "a.example.com",
     { name := "ambassador"
       annotations :=
         some (AList.singleton sampleKeys.ExternalDNSAnnotationKey "a.example.com") }])]

/-- The designated service `ambassador` is listed first in namespace `default`, before a service
`web` that declares the host "a.example.com". -/
def clusterAmbassadorFirst : Client :=
  staticClient [("default",
    [{ name := "ambassador", annotations := some ∅ }, mappingService "web" "a.example.com"])]

/-- The designated service is listed last and has no annotation map at all (a nil map), while
`web` declares the host "a.example.com". -/
def clusterNilAnnotations : Client :=
  staticClient [("default",
    [mappingService "web" "a.example.com", { name := "ambassador", annotations := none }])]

/-- No service is named `ambassador` in namespace `default`. -/
def clusterWithoutAmbassador : Client :=
  staticClient [("default", [mappingService "web" "a.example.com"]),
    ("kube-system", [{ name := "ambassador", annotations := some ∅ }])]

/-- A scan state with the retained service replaced through `f`. -/
def mapRetained {d : Decoder} (f : Service → Service) (st : ScanState d) : ScanState d :=
  { st with ambassadorService := st.ambassadorService.map f }

/-- The designated service is listed last, has an empty annotation map, and `web` declares the
host "a.example.com": the first pass has to insert the target annotation. -/
def clusterPending : Client :=
  staticClient [("default",
    [mappingService "web" "a.example.com", { name := "ambassador", annotations := some ∅ }])]

/-- A payload of another kind than a mapping that carries a `host` field. -/
def modulePayload (host : String) : String :=
  "---\napiVersion: ambassador/v0\nkind: Module\nname: legacy\nhost: " ++ host

/-- A mapping payload without a `host` field. -/
def hostlessMappingPayload : String :=
  "---\napiVersion: ambassador/v0\nkind: Mapping\nname: web\nprefix: /\nservice: web"

/-- Namespace `apps` lists `api` (a mapping for "z.example.com"), `legacy` (not a mapping, with
host "y.example.com") and `web` (a mapping without host); namespace `default` lists only the
designated service, with an empty annotation map. -/
def clusterStale : Client :=
  staticClient
    [("apps",
      [mappingService "api" "z.example.com",
       { name := "legacy"
         annotations := some (AList.singleton sampleKeys.AmbassadorAnnotationKey
           (modulePayload "y.example.com")) },
       { name := "web"
         annotations := some (AList.singleton sampleKeys.AmbassadorAnnotationKey
           hostlessMappingPayload) }]),
     ("default", [{ name := "ambassador", annotations := some ∅ }])]

/-! ## Ranging over a map -/

/-- A loop body that only acts on key `K`, folded over key-unique entries, acts once on the
entry of `K` or not at all. -/
theorem foldl_entries_key {σ : Type} (K : String) (f : σ → String → String → σ)
    (hf : ∀ st k v, k ≠ K → f st k v = st) :
    ∀ (l : List (Sigma fun _ : String => String)), l.NodupKeys → ∀ st : σ,
      l.foldl (fun acc e => f acc e.1 e.2) st =
        match l.dlookup K with
        | none => st
        | some v => f st K v := by
  intro l
  induction l with
  | nil => intro _ st; simp
  | cons e t ih =>
    intro hnd st
    obtain ⟨hnotin, hnd'⟩ := List.nodupKeys_cons.mp hnd
    obtain ⟨k, v⟩ := e
    by_cases hk : k = K
    · subst hk
      have hnone : t.dlookup k = none := List.dlookup_eq_none.mpr hnotin
      simp only [List.foldl_cons, List.dlookup_cons_eq]
      rw [ih hnd', hnone]
    · have hne : K ≠ k := fun h => hk h.symm
      simp only [List.foldl_cons]
      rw [hf st k v hk, ih hnd', List.dlookup_cons_ne _ _ hne]

/-- Ranging over a map with a body that only acts on key `K`. -/
theorem foldl_rangeMap_key {σ : Type} (K : String) (f : σ → String → String → σ)
    (hf : ∀ st k v, k ≠ K → f st k v = st) (m : Option AnnMap) (st : σ) :
    (rangeMap m).foldl (fun acc e => f acc e.1 e.2) st =
      match mapLookup m K with
      | none => st
      | some v => f st K v := by
  cases m with
  | none => simp [rangeMap, mapLookup]
  | some m =>
    have := foldl_entries_key K f hf m.entries m.nodupKeys st
    simpa [rangeMap, mapLookup, AList.lookup] using this

theorem scanEntry_other (d : Decoder) (keys : Keys) (st : ScanState d) (k v : String)
    (hk : k ≠ keys.AmbassadorAnnotationKey) : scanEntry d keys st k v = st := by
  simp [scanEntry, hk]

/-- The loop over a service's annotations, by the binding of the source key. -/
theorem scanAnnotations_eq (d : Decoder) (keys : Keys) (st : ScanState d)
    (m : Option AnnMap) :
    scanAnnotations d keys st m =
      match mapLookup m keys.AmbassadorAnnotationKey with
      | none => st
      | some v => scanEntry d keys st keys.AmbassadorAnnotationKey v := by
  unfold scanAnnotations
  exact foldl_rangeMap_key keys.AmbassadorAnnotationKey (scanEntry d keys)
    (scanEntry_other d keys) m st

theorem diffEntry_other (keys : Keys) (dnsValue : String) (st : DiffState) (k v : String)
    (hk : k ≠ keys.ExternalDNSAnnotationKey) : diffEntry keys dnsValue st k v = st := by
  simp [diffEntry, hk]

/-- The loop of the diff, by the current binding of the target key. -/
theorem diffLoop_eq (keys : Keys) (dnsValue : String) (m : Option AnnMap) :
    diffLoop keys dnsValue m =
      match mapLookup m keys.ExternalDNSAnnotationKey with
      | none => { annotations := m, needsUpdate := false, foundDNS := false }
      | some v =>
        if v ≠ dnsValue then
          { annotations := m.map (fun x => x.insert keys.ExternalDNSAnnotationKey dnsValue)
            needsUpdate := true, foundDNS := true }
        else { annotations := m, needsUpdate := false, foundDNS := true } := by
  unfold diffLoop
  rw [foldl_rangeMap_key keys.ExternalDNSAnnotationKey (diffEntry keys dnsValue)
    (diffEntry_other keys dnsValue)]
  cases h : mapLookup m keys.ExternalDNSAnnotationKey with
  | none => rfl
  | some v => simp [diffEntry]

/-- C1. Diff step of `Syncer.Sync`: for every annotation mapping `m` of the retained service and
every computed AggregateValue `v`, the diff returns a mapping in which the target key
`ExternalDNSAnnotationKey` is bound to `v` when `v` is non-empty and is absent when `v` is the
empty string, and in which every other key has exactly the binding it had in `m`; on a service
without any mapping (nil map) and the empty AggregateValue the diff leaves the nil map. -/
theorem C1_diffStep_target_key (keys : Keys) (m : AnnMap) (v : String) :
    (∃ (m1 : AnnMap) (needsUpdate : Bool),
      diffStep keys (some m) v = Exec.ret (some m1, needsUpdate) ∧
      m1.lookup keys.ExternalDNSAnnotationKey = (if v = "" then none else some v) ∧
      ∀ k, k ≠ keys.ExternalDNSAnnotationKey → m1.lookup k = m.lookup k) ∧
    diffStep keys none "" = Exec.ret (none, false) := by
  refine ⟨?_, by simp [diffStep, diffLoop, rangeMap]⟩
  unfold diffStep
  rw [diffLoop_eq]
  have hlook : mapLookup (some m) keys.ExternalDNSAnnotationKey =
      m.lookup keys.ExternalDNSAnnotationKey := rfl
  rw [hlook]
  cases h : m.lookup keys.ExternalDNSAnnotationKey with
  | none =>
    by_cases hv : v = ""
    · refine ⟨m, false, ?_, ?_, fun _ _ => rfl⟩
      · simp [h, hv]
      · simp [h, hv]
    · refine ⟨m.insert keys.ExternalDNSAnnotationKey v, true, ?_, ?_, ?_⟩
      · simp [h, hv, mapAssign]
      · simp [hv]
      · intro k hk; exact AList.lookup_insert_ne hk
  | some w =>
    by_cases hv : v = ""
    · subst hv
      by_cases hw : w = ""
      · refine ⟨m.erase keys.ExternalDNSAnnotationKey, true, ?_, ?_, ?_⟩
        · simp [h, hw, mapDelete]
        · simp
        · intro k hk; exact AList.lookup_erase_ne hk
      · refine ⟨(m.insert keys.ExternalDNSAnnotationKey "").erase keys.ExternalDNSAnnotationKey,
          true, ?_, ?_, ?_⟩
        · simp [h, hw, mapDelete]
        · simp
        · intro k hk
          rw [AList.lookup_erase_ne hk, AList.lookup_insert_ne hk]
    · by_cases hw : w = v
      · refine ⟨m, false, ?_, ?_, fun _ _ => rfl⟩
        · simp [h, hv, hw]
        · simp [h, hv, hw]
      · refine ⟨m.insert keys.ExternalDNSAnnotationKey v, true, ?_, ?_, ?_⟩
        · simp [h, hv, hw]
        · simp [hv]
        · intro k hk; exact AList.lookup_insert_ne hk

/-! ## The host list -/

theorem collectHosts_append (l : List String) (h : String) :
    collectHosts (l ++ [h]) =
      if ContainsString (collectHosts l) h then collectHosts l else collectHosts l ++ [h] := by
  simp [collectHosts, List.foldl_append]

theorem collectHosts_spec (l : List String) :
    (collectHosts l).Nodup ∧ ∀ h, h ∈ collectHosts l ↔ h ∈ l := by
  induction l using List.reverseRecOn with
  | nil => simp [collectHosts]
  | append_singleton l a ih =>
    obtain ⟨hnd, hmem⟩ := ih
    rw [collectHosts_append]
    by_cases hc : a ∈ collectHosts l
    · have ha : a ∈ l := (hmem a).mp hc
      simp only [ContainsString, hc, decide_True, if_true]
      refine ⟨hnd, fun h => ?_⟩
      rw [hmem h, List.mem_append, List.mem_singleton]
      constructor
      · exact Or.inl
      · rintro (h1 | h1)
        · exact h1
        · exact h1 ▸ ha
    · simp only [ContainsString, hc, decide_False]
      refine ⟨?_, fun h => ?_⟩
      · exact List.Nodup.append hnd (List.nodup_singleton a) (by simpa using hc)
      · simp [List.mem_append, hmem h]

theorem scanInv_init (d : Decoder) : ScanInv (scanInit d) := by
  simp [ScanInv, scanInit, collectHosts]

theorem scanInv_entry (d : Decoder) (keys : Keys) (st : ScanState d) (k v : String)
    (h : ScanInv st) : ScanInv (scanEntry d keys st k v) := by
  obtain ⟨h1, h2⟩ := h
  unfold scanEntry
  dsimp only
  by_cases hk : k = keys.AmbassadorAnnotationKey
  · rw [if_pos hk]
    by_cases hf : (d.Unmarshal v st.config).2 = true
    · rw [if_pos hf]; exact ⟨h1, h2⟩
    · rw [if_neg hf]
      by_cases hm : d.IsMapping (d.Unmarshal v st.config).1 = true
      · rw [if_pos hm]
        by_cases hh : d.Host (d.Unmarshal v st.config).1 ≠ ""
        · rw [if_pos hh]
          refine ⟨?_, ?_⟩
          · show _ = collectHosts (st.reported ++ [d.Host (d.Unmarshal v st.config).1])
            rw [collectHosts_append, ← h1]
          · intro x hx
            have hx1 : x ∈ st.reported ++ [d.Host (d.Unmarshal v st.config).1] := hx
            simp only [List.mem_append, List.mem_singleton] at hx1
            rcases hx1 with hx1 | hx1
            · exact h2 x hx1
            · exact hx1 ▸ hh
        · rw [if_neg hh]; exact ⟨h1, h2⟩
      · rw [if_neg hm]; exact ⟨h1, h2⟩
  · rw [if_neg hk]; exact ⟨h1, h2⟩

theorem scanInv_annotations (d : Decoder) (keys : Keys) (m : Option AnnMap) (st : ScanState d)
    (h : ScanInv st) : ScanInv (scanAnnotations d keys st m) := by
  unfold scanAnnotations
  generalize rangeMap m = l
  induction l generalizing st with
  | nil => simpa using h
  | cons e t ih => exact ih _ (scanInv_entry d keys st e.1 e.2 h)

theorem scanInv_service (d : Decoder) (keys : Keys) (s : Syncer) (n : String)
    (acc : ScanState d × Bool) (item : Service) (h : ScanInv acc.1) :
    ScanInv (scanService d keys s n acc item).1 := by
  unfold scanService
  apply scanInv_annotations
  obtain ⟨h1, h2⟩ := h
  split_ifs <;> exact ⟨h1, h2⟩

theorem scanInv_items (d : Decoder) (keys : Keys) (s : Syncer) (n : String)
    (items : List Service) (st : ScanState d) (h : ScanInv st) :
    ScanInv (scanItems d keys s n st items) := by
  unfold scanItems
  generalize hacc : (st, false) = acc
  have hi : ScanInv acc.1 := by rw [← hacc]; exact h
  clear hacc h
  induction items generalizing acc with
  | nil => simpa using hi
  | cons x t ih => exact ih _ (scanInv_service d keys s n acc x hi)

theorem scanInv_namespaces (d : Decoder) (keys : Keys) (s : Syncer) (c : Client)
    (namespaces : List String) (st st1 : ScanState d) (h : ScanInv st)
    (hs : scanNamespaces d keys s c namespaces st = Except.ok st1) : ScanInv st1 := by
  induction namespaces generalizing st with
  | nil =>
    simp only [scanNamespaces, Except.ok.injEq] at hs
    exact hs ▸ h
  | cons n rest ih =>
    simp only [scanNamespaces] at hs
    cases hl : c.listServices n with
    | error e => simp [hl] at hs
    | ok items =>
      rw [hl] at hs
      exact ih _ (scanInv_items d keys s n items st h) hs

/-! ## Where the reported hosts come from -/

theorem scanEntry_reported (d : Decoder) (keys : Keys) (st : ScanState d) (k v : String)
    (P : String → Prop) (hst : ∀ h ∈ st.reported, P h)
    (hv : ∀ config : d.AmbassadorConfig, (d.Unmarshal v config).2 = false →
      d.IsMapping (d.Unmarshal v config).1 = true → P (d.Host (d.Unmarshal v config).1)) :
    ∀ h ∈ (scanEntry d keys st k v).reported, P h := by
  unfold scanEntry
  dsimp only
  by_cases hk : k = keys.AmbassadorAnnotationKey
  · rw [if_pos hk]
    by_cases hf : (d.Unmarshal v st.config).2 = true
    · rw [if_pos hf]; exact hst
    · rw [if_neg hf]
      by_cases hm : d.IsMapping (d.Unmarshal v st.config).1 = true
      · rw [if_pos hm]
        by_cases hh : d.Host (d.Unmarshal v st.config).1 ≠ ""
        · rw [if_pos hh]
          intro x hx
          have hx1 : x ∈ st.reported ++ [d.Host (d.Unmarshal v st.config).1] := hx
          simp only [List.mem_append, List.mem_singleton] at hx1
          rcases hx1 with hx1 | hx1
          · exact hst x hx1
          · rw [hx1]
            exact hv st.config (by simpa using hf) hm
        · rw [if_neg hh]; exact hst
      · rw [if_neg hm]; exact hst
  · rw [if_neg hk]; exact hst

theorem scanAnnotations_reported (d : Decoder) (keys : Keys) (st : ScanState d)
    (m : Option AnnMap) (P : String → Prop) (hst : ∀ h ∈ st.reported, P h)
    (hm : ∀ value, mapLookup m keys.AmbassadorAnnotationKey = some value →
      ∀ config : d.AmbassadorConfig, (d.Unmarshal value config).2 = false →
      d.IsMapping (d.Unmarshal value config).1 = true →
      P (d.Host (d.Unmarshal value config).1)) :
    ∀ h ∈ (scanAnnotations d keys st m).reported, P h := by
  rw [scanAnnotations_eq]
  cases hl : mapLookup m keys.AmbassadorAnnotationKey with
  | none => exact hst
  | some value => exact scanEntry_reported d keys st _ value P hst (hm value hl)

theorem scanItems_reported (d : Decoder) (keys : Keys) (s : Syncer) (n : String)
    (items : List Service) (st : ScanState d) (P : String → Prop)
    (hst : ∀ h ∈ st.reported, P h)
    (hitems : ∀ x ∈ items, ∀ value,
      mapLookup x.annotations keys.AmbassadorAnnotationKey = some value →
      ∀ config : d.AmbassadorConfig, (d.Unmarshal value config).2 = false →
      d.IsMapping (d.Unmarshal value config).1 = true →
      P (d.Host (d.Unmarshal value config).1)) :
    ∀ h ∈ (scanItems d keys s n st items).reported, P h := by
  unfold scanItems
  suffices hgen : ∀ (l : List Service) (acc : ScanState d × Bool),
      (∀ h ∈ acc.1.reported, P h) →
      (∀ x ∈ l, ∀ value, mapLookup x.annotations keys.AmbassadorAnnotationKey = some value →
        ∀ config : d.AmbassadorConfig, (d.Unmarshal value config).2 = false →
        d.IsMapping (d.Unmarshal value config).1 = true →
        P (d.Host (d.Unmarshal value config).1)) →
      ∀ h ∈ (l.foldl (scanService d keys s n) acc).1.reported, P h from
    hgen items (st, false) hst hitems
  intro l
  induction l with
  | nil => intro acc h _; exact h
  | cons x t ih =>
    intro acc hacc hl
    rw [List.foldl_cons]
    refine ih _ ?_ (fun y hy => hl y (List.mem_cons_of_mem x hy))
    unfold scanService
    apply scanAnnotations_reported d keys _ x.annotations P _ (hl x (List.mem_cons_self x t))
    split_ifs <;> exact hacc

theorem scanNamespaces_reported (d : Decoder) (keys : Keys) (s : Syncer) (c : Client)
    (namespaces : List String) (st st1 : ScanState d) (P : String → Prop)
    (hst : ∀ h ∈ st.reported, P h)
    (hP : ∀ n ∈ namespaces, ∀ items, c.listServices n = Except.ok items →
      ∀ x ∈ items, ∀ value,
      mapLookup x.annotations keys.AmbassadorAnnotationKey = some value →
      ∀ config : d.AmbassadorConfig, (d.Unmarshal value config).2 = false →
      d.IsMapping (d.Unmarshal value config).1 = true →
      P (d.Host (d.Unmarshal value config).1))
    (hs : scanNamespaces d keys s c namespaces st = Except.ok st1) :
    ∀ h ∈ st1.reported, P h := by
  induction namespaces generalizing st with
  | nil =>
    simp only [scanNamespaces, Except.ok.injEq] at hs
    exact hs ▸ hst
  | cons n rest ih =>
    simp only [scanNamespaces] at hs
    cases hl : c.listServices n with
    | error e => simp [hl] at hs
    | ok items =>
      rw [hl] at hs
      refine ih _ ?_ (fun m hm => hP m (List.mem_cons_of_mem n hm)) hs
      exact scanItems_reported d keys s n items st P hst
        (hP n (List.mem_cons_self n rest) items hl)

/-! ## Sorting -/

theorem stringLess_eq_false_iff (a b : String) : stringLess b a = false ↔ a ≤ b := by
  unfold stringLess
  rw [decide_eq_false_iff_not, ← not_lt]
  exact not_congr String.lt_iff_toList_lt.symm

theorem sortStrings_perm (l : List String) : (sortStrings l).Perm l :=
  List.perm_insertionSort _ l

theorem sortStrings_sorted (l : List String) : List.Sorted (· ≤ ·) (sortStrings l) := by
  have htotal : IsTotal String (fun a b => stringLess b a = false) :=
    ⟨fun a b => by
      rw [stringLess_eq_false_iff, stringLess_eq_false_iff]; exact le_total a b⟩
  have htrans : IsTrans String (fun a b => stringLess b a = false) :=
    ⟨fun a b c => by
      rw [stringLess_eq_false_iff, stringLess_eq_false_iff, stringLess_eq_false_iff]
      exact le_trans⟩
  have h := List.sorted_insertionSort (fun a b => stringLess b a = false) l
  exact List.Pairwise.imp (fun {a b} hab => (stringLess_eq_false_iff a b).mp hab) h

theorem aggregate_spec (hosts : List String) (hnd : hosts.Nodup) :
    List.Sorted (· < ·) (aggregate hosts).1 ∧
    (∀ h, h ∈ (aggregate hosts).1 ↔ h ∈ hosts) ∧
    (aggregate hosts).2 = joinComma (aggregate hosts).1 ∧
    ((aggregate hosts).1 = [] → (aggregate hosts).2 = "") := by
  unfold aggregate
  split_ifs with hlen
  · refine ⟨?_, ?_, rfl, ?_⟩
    · exact (sortStrings_sorted hosts).lt_of_le ((sortStrings_perm hosts).nodup_iff.mpr hnd)
    · intro h; exact (sortStrings_perm hosts).mem_iff
    · intro he
      have he1 : sortStrings hosts = [] := he
      have hlen1 := (sortStrings_perm hosts).length_eq
      rw [he1, List.length_nil] at hlen1
      omega
  · have : hosts = [] := by
      cases hosts with
      | nil => rfl
      | cons a t => simp at hlen
    subst this
    exact ⟨List.sorted_nil, fun _ => Iff.rfl, rfl, fun _ => rfl⟩

/-- The slice `Sync` returns after line 146 is the sorted host list. -/
theorem Sync_hosts (d : Decoder) (keys : Keys) (s : Syncer) (c : Client)
    (namespaces : List String) (st : ScanState d) (r : SyncReturn)
    (hl : c.listNamespaces = Except.ok namespaces)
    (hs : scanNamespaces d keys s c namespaces (scanInit d) = Except.ok st)
    (hr : Sync d keys s c = Exec.ret r) : r.hosts = (aggregate st.hosts).1 := by
  unfold Sync at hr
  simp only [hl, hs] at hr
  split at hr
  · cases hr; rfl
  · split at hr
    · cases hr
    · cases hr
    · split at hr
      · split at hr <;> cases hr <;> rfl
      · cases hr; rfl

/-- What holds of the host list for every decoder and every cluster listing: it is in strictly
ascending order (so it has no duplicate), its elements are exactly the hosts reported while
scanning, each of them non-empty and the `Host` of a mapping decoded from a listed service's
source annotation into the shared configuration, AggregateValue is that list joined with ","
(the empty string for the empty list), and it is the list a returning `Sync` hands back.
Reported hosts "b", "a", "a", "c" give the list "a", "b", "c" and AggregateValue "a,b,c". -/
theorem hosts_sorted_dedup_joined (d : Decoder) (keys : Keys) (s : Syncer) (c : Client)
    (namespaces : List String) (st : ScanState d)
    (hl : c.listNamespaces = Except.ok namespaces)
    (hs : scanNamespaces d keys s c namespaces (scanInit d) = Except.ok st) :
    List.Sorted (· < ·) (aggregate st.hosts).1 ∧
    (aggregate st.hosts).1.Nodup ∧
    (∀ h, h ∈ (aggregate st.hosts).1 ↔ h ∈ st.reported) ∧
    (∀ h ∈ st.reported, h ≠ "" ∧ Declared d keys c namespaces h) ∧
    (aggregate st.hosts).2 = joinComma (aggregate st.hosts).1 ∧
    ((aggregate st.hosts).1 = [] → (aggregate st.hosts).2 = "") ∧
    (∀ r, Sync d keys s c = Exec.ret r → r.hosts = (aggregate st.hosts).1) ∧
    (st.reported = ["b", "a", "a", "c"] →
      (aggregate st.hosts).1 = ["a", "b", "c"] ∧ (aggregate st.hosts).2 = "a,b,c") := by
  obtain ⟨hinv, hne⟩ := scanInv_namespaces d keys s c namespaces _ st (scanInv_init d) hs
  obtain ⟨hnd, hmem⟩ := collectHosts_spec st.reported
  rw [← hinv] at hnd hmem
  obtain ⟨h1, h2, h3, h4⟩ := aggregate_spec st.hosts hnd
  have hdecl : ∀ h ∈ st.reported, Declared d keys c namespaces h :=
    scanNamespaces_reported d keys s c namespaces (scanInit d) st
      (Declared d keys c namespaces) (fun h hh => by cases hh)
      (fun n hn items hitems x hx value hval config hok hmap =>
        ⟨n, hn, items, hitems, x, hx, value, config, hval, hok, hmap, rfl⟩) hs
  refine ⟨h1, h1.nodup, fun h => (h2 h).trans (hmem h), fun h hh => ⟨hne h hh, hdecl h hh⟩,
    h3, h4, ?_, ?_⟩
  · intro r hr
    exact Sync_hosts d keys s c namespaces st r hl hs hr
  · intro hrep
    rw [hinv, hrep]
    exact ⟨by decide, by decide⟩

/-- The host list at the cluster `clusterBAAC`. -/
theorem hosts_at_clusterBAAC :
    ∃ st : ScanState flatDecoder,
      scanNamespaces flatDecoder sampleKeys sampleSyncer clusterBAAC ["default"]
        (scanInit flatDecoder) = Except.ok st ∧
      st.reported = ["b", "a", "a", "c"] ∧
      (aggregate st.hosts).1 = ["a", "b", "c"] ∧
      (aggregate st.hosts).2 = "a,b,c" :=
  ⟨_, rfl, by decide, by decide, by decide⟩

/-! ## The hosts discovered on the services -/

theorem scanEntry_reported_fresh (d : Decoder) (keys : Keys) (hd : d.Fresh)
    (st : ScanState d) (v : String) :
    (scanEntry d keys st keys.AmbassadorAnnotationKey v).reported =
      st.reported ++ (decodedHost d v).toList := by
  unfold scanEntry decodedHost
  dsimp only
  rw [if_pos rfl, hd v st.config]
  by_cases hf : (d.Unmarshal v d.zero).2 = true
  · simp [hf]
  · by_cases hm : d.IsMapping (d.Unmarshal v d.zero).1 = true
    · by_cases hh : d.Host (d.Unmarshal v d.zero).1 = ""
      · simp [hf, hm, hh]
      · simp [hf, hm, hh]
    · simp [hf, hm]

theorem scanAnnotations_reported_fresh (d : Decoder) (keys : Keys) (hd : d.Fresh)
    (st : ScanState d) (x : Service) :
    (scanAnnotations d keys st x.annotations).reported =
      st.reported ++ (declaredHost d keys x).toList := by
  rw [scanAnnotations_eq]
  unfold declaredHost
  cases mapLookup x.annotations keys.AmbassadorAnnotationKey with
  | none => simp
  | some v => exact scanEntry_reported_fresh d keys hd st v

theorem scanItems_reported_fresh (d : Decoder) (keys : Keys) (hd : d.Fresh) (s : Syncer)
    (n : String) (items : List Service) (st : ScanState d) :
    (scanItems d keys s n st items).reported =
      st.reported ++ items.filterMap (declaredHost d keys) := by
  unfold scanItems
  suffices hgen : ∀ (l : List Service) (acc : ScanState d × Bool),
      (l.foldl (scanService d keys s n) acc).1.reported =
        acc.1.reported ++ l.filterMap (declaredHost d keys) from hgen items (st, false)
  intro l
  induction l with
  | nil => intro acc; simp
  | cons x t ih =>
    intro acc
    have hstep : (scanService d keys s n acc x).1.reported =
        acc.1.reported ++ (declaredHost d keys x).toList := by
      unfold scanService
      rw [scanAnnotations_reported_fresh d keys hd]
      congr 1
      split_ifs <;> rfl
    rw [List.foldl_cons, ih, hstep, List.filterMap_cons]
    cases declaredHost d keys x <;> simp

theorem scanNamespaces_reported_fresh (d : Decoder) (keys : Keys) (hd : d.Fresh) (s : Syncer)
    (c : Client) (namespaces : List String) (st st1 : ScanState d)
    (hs : scanNamespaces d keys s c namespaces st = Except.ok st1) :
    st1.reported = st.reported ++ discoveredHosts d keys c namespaces := by
  induction namespaces generalizing st with
  | nil =>
    simp only [scanNamespaces, Except.ok.injEq] at hs
    simp [discoveredHosts, hs]
  | cons n rest ih =>
    simp only [scanNamespaces] at hs
    cases hl : c.listServices n with
    | error e => simp [hl] at hs
    | ok items =>
      rw [hl] at hs
      rw [ih _ hs, scanItems_reported_fresh d keys hd]
      simp [discoveredHosts, hl, List.append_assoc]

/-- With a decoder that does not depend on what the shared configuration held before, the host
list has exactly the hosts discovered on the scanned services. -/
theorem hosts_exact_of_fresh (d : Decoder) (keys : Keys) (hd : d.Fresh) (s : Syncer)
    (c : Client) (namespaces : List String) (st : ScanState d)
    (hl : c.listNamespaces = Except.ok namespaces)
    (hs : scanNamespaces d keys s c namespaces (scanInit d) = Except.ok st) :
    ∀ h, h ∈ (aggregate st.hosts).1 ↔ h ∈ discoveredHosts d keys c namespaces := by
  intro h
  have hrep := scanNamespaces_reported_fresh d keys hd s c namespaces (scanInit d) st hs
  rw [(hosts_sorted_dedup_joined d keys s c namespaces st hl hs).2.2.1 h, hrep]
  simp [scanInit]

/-- C2. Sorting/dedup law of `Syncer.Sync`, evaluated at `clusterStale`: the only host discovered
on the scanned services is "z.example.com" (`legacy` is not a mapping, the mapping of `web` has
no host), where the claim requires the host list to have exactly the discovered hosts; `Sync`
computes the list "y.example.com", "z.example.com" and writes AggregateValue
"y.example.com,z.example.com", because `config` still holds the host decoded from `legacy` when
the payload of `web` is decoded into it. -/
theorem C2_stale_config_host :
    discoveredHosts flatDecoder sampleKeys clusterStale ["apps", "default"] =
      ["z.example.com"] ∧
    clusterStale.listNamespaces = Except.ok ["apps", "default"] ∧
    Sync flatDecoder sampleKeys sampleSyncer clusterStale =
      Exec.ret
        { hosts := ["y.example.com", "z.example.com"], err := none
          updates := [("default",
            { name := "ambassador"
              annotations := some (AList.singleton sampleKeys.ExternalDNSAnnotationKey
                "y.example.com,z.example.com") })] } := by
  refine ⟨by decide, rfl, by decide⟩

/-! ## The pass after the scan -/

/-- `Sync` once both listings have succeeded. -/
theorem Sync_of_scan (d : Decoder) (keys : Keys) (s : Syncer) (c : Client)
    (namespaces : List String) (st : ScanState d)
    (hl : c.listNamespaces = Except.ok namespaces)
    (hs : scanNamespaces d keys s c namespaces (scanInit d) = Except.ok st) :
    Sync d keys s c =
      match st.ambassadorService with
      | none =>
        Exec.ret { hosts := (aggregate st.hosts).1, err := some errNotFound, updates := [] }
      | some ambassadorService =>
        match diffStep keys ambassadorService.annotations (aggregate st.hosts).2 with
        | Exec.panic msg => Exec.panic msg
        | Exec.blocked => Exec.blocked
        | Exec.ret (annotations, needsUpdate) =>
          if needsUpdate then
            match c.update s.serviceNamespace
              { ambassadorService with annotations := annotations } with
            | some e =>
              Exec.ret { hosts := (aggregate st.hosts).1, err := some e
                         updates := [(s.serviceNamespace,
                           { ambassadorService with annotations := annotations })] }
            | none =>
              Exec.ret { hosts := (aggregate st.hosts).1, err := none
                         updates := [(s.serviceNamespace,
                           { ambassadorService with annotations := annotations })] }
          else
            Exec.ret { hosts := (aggregate st.hosts).1, err := none, updates := [] } := by
  unfold Sync
  simp only [hl, hs]

/-- The diff changes nothing and asks for no write when the target key is bound to a non-empty
`dnsValue`, and when it is unbound and `dnsValue` is empty. -/
theorem diffStep_settled (keys : Keys) (m : Option AnnMap) (dnsValue : String)
    (h : (mapLookup m keys.ExternalDNSAnnotationKey = some dnsValue ∧ dnsValue ≠ "") ∨
         (mapLookup m keys.ExternalDNSAnnotationKey = none ∧ dnsValue = "")) :
    diffStep keys m dnsValue = Exec.ret (m, false) := by
  unfold diffStep
  rw [diffLoop_eq]
  rcases h with ⟨h1, h2⟩ | ⟨h1, h2⟩
  · simp [h1, h2]
  · simp [h1, h2]

/-- C3 (as amended). No-op write suppression: for every cluster state in which the scan retains
a service as the designated one, and either that service's target annotation is bound to a
value equal to a non-empty AggregateValue, or the key is absent and AggregateValue is empty,
`Syncer.Sync` issues zero `Update` calls and returns no error. -/
theorem C3_noop_write_suppression (d : Decoder) (keys : Keys) (s : Syncer) (c : Client)
    (namespaces : List String) (st : ScanState d) (ambassadorService : Service)
    (hl : c.listNamespaces = Except.ok namespaces)
    (hs : scanNamespaces d keys s c namespaces (scanInit d) = Except.ok st)
    (ha : st.ambassadorService = some ambassadorService)
    (hv : (mapLookup ambassadorService.annotations keys.ExternalDNSAnnotationKey =
              some (aggregate st.hosts).2 ∧ (aggregate st.hosts).2 ≠ "") ∨
          (mapLookup ambassadorService.annotations keys.ExternalDNSAnnotationKey = none ∧
              (aggregate st.hosts).2 = "")) :
    Sync d keys s c =
      Exec.ret { hosts := (aggregate st.hosts).1, err := none, updates := [] } := by
  rw [Sync_of_scan d keys s c namespaces st hl hs, ha]
  simp only [diffStep_settled keys ambassadorService.annotations _ hv]
  rfl

/-- No-op write suppression at `clusterSettled`: the target annotation already has the value
"a.example.com" and no `Update` is issued. -/
theorem C3_noop_write_suppression_witness :
    ∃ st : ScanState flatDecoder,
      clusterSettled.listNamespaces = Except.ok ["default"] ∧
      scanNamespaces flatDecoder sampleKeys sampleSyncer clusterSettled ["default"]
        (scanInit flatDecoder) = Except.ok st ∧
      st.ambassadorService = some
        { name := "ambassador"
          annotations :=
            some (AList.singleton sampleKeys.ExternalDNSAnnotationKey "a.example.com") } ∧
      (aggregate st.hosts).2 = "a.example.com" ∧
      Sync flatDecoder sampleKeys sampleSyncer clusterSettled =
        Exec.ret { hosts := ["a.example.com"], err := none, updates := [] } :=
  ⟨_, rfl, rfl, rfl, by decide,
    C3_noop_write_suppression flatDecoder sampleKeys sampleSyncer clusterSettled ["default"] _ _
      rfl rfl rfl (Or.inl ⟨by decide, by decide⟩)⟩

/-- C3 (as stated) fails at `clusterEmptyValue`: the designated service is found, its target
annotation is present with the empty string as value, AggregateValue is the empty string as
well, and `Sync` removes the key and issues one `Update`. -/
theorem C3_counterexample_empty_value :
    (∃ st : ScanState flatDecoder,
      scanNamespaces flatDecoder sampleKeys sampleSyncer clusterEmptyValue ["default"]
        (scanInit flatDecoder) = Except.ok st ∧
      st.ambassadorService = some
        { name := "ambassador"
          annotations := some (AList.singleton sampleKeys.ExternalDNSAnnotationKey "") } ∧
      (aggregate st.hosts).2 = "" ∧
      mapLookup (some (AList.singleton sampleKeys.ExternalDNSAnnotationKey ""))
        sampleKeys.ExternalDNSAnnotationKey = some (aggregate st.hosts).2) ∧
    Sync flatDecoder sampleKeys sampleSyncer clusterEmptyValue =
      Exec.ret { hosts := [], err := none
                 updates := [("default", { name := "ambassador", annotations := some ∅ })] } :=
  ⟨⟨_, rfl, rfl, by decide, by decide⟩, by decide⟩

/-! ## The retained service -/

theorem scanEntry_ambassadorService (d : Decoder) (keys : Keys) (st : ScanState d)
    (k v : String) : (scanEntry d keys st k v).ambassadorService = st.ambassadorService := by
  unfold scanEntry
  dsimp only
  split_ifs <;> rfl

theorem scanAnnotations_ambassadorService (d : Decoder) (keys : Keys) (m : Option AnnMap)
    (st : ScanState d) :
    (scanAnnotations d keys st m).ambassadorService = st.ambassadorService := by
  unfold scanAnnotations
  generalize rangeMap m = l
  induction l generalizing st with
  | nil => rfl
  | cons e t ih =>
    rw [List.foldl_cons, ih, scanEntry_ambassadorService]

/-- A listing without a matching service leaves the pointer as it was. -/
theorem scanItems_unmatched (d : Decoder) (keys : Keys) (s : Syncer) (n : String)
    (items : List Service) (st : ScanState d)
    (h : ∀ x ∈ items, ¬ (n = s.serviceNamespace ∧ x.name = s.serviceName)) :
    (scanItems d keys s n st items).ambassadorService = st.ambassadorService := by
  unfold scanItems
  suffices hgen : ∀ (l : List Service) (acc : ScanState d × Bool), acc.2 = false →
      (∀ x ∈ l, ¬ (n = s.serviceNamespace ∧ x.name = s.serviceName)) →
      (l.foldl (scanService d keys s n) acc).1.ambassadorService = acc.1.ambassadorService from
    hgen items (st, false) rfl h
  intro l
  induction l with
  | nil => intro acc _ _; rfl
  | cons x t ih =>
    intro acc hacc hl
    have hx := hl x (List.mem_cons_self x t)
    have hstep : scanService d keys s n acc x =
        (scanAnnotations d keys acc.1 x.annotations, false) := by
      simp [scanService, hacc, hx]
    rw [List.foldl_cons, hstep, ih _ rfl (fun y hy => hl y (List.mem_cons_of_mem x hy))]
    exact scanAnnotations_ambassadorService d keys x.annotations acc.1

/-- With no service matching the configured namespace and name, the pointer stays nil. -/
theorem scanNamespaces_not_found (d : Decoder) (keys : Keys) (s : Syncer) (c : Client)
    (namespaces : List String) (st st1 : ScanState d)
    (h : ∀ n ∈ namespaces, ∀ items, c.listServices n = Except.ok items →
      ∀ x ∈ items, ¬ (n = s.serviceNamespace ∧ x.name = s.serviceName))
    (hst : st.ambassadorService = none)
    (hs : scanNamespaces d keys s c namespaces st = Except.ok st1) :
    st1.ambassadorService = none := by
  induction namespaces generalizing st with
  | nil =>
    simp only [scanNamespaces, Except.ok.injEq] at hs
    exact hs ▸ hst
  | cons n rest ih =>
    simp only [scanNamespaces] at hs
    cases hl : c.listServices n with
    | error e => simp [hl] at hs
    | ok items =>
      rw [hl] at hs
      refine ih _ (fun m hm => h m (List.mem_cons_of_mem n hm)) ?_ hs
      rw [scanItems_unmatched d keys s n items st (h n (List.mem_cons_self n rest) items hl)]
      exact hst

/-! ## Which service is written -/

/-- C4. Write target identity, evaluated at `clusterAmbassadorFirst`, where the designated
service `default/ambassador` is followed by `web` in its namespace's listing: the object `Sync`
diffs and passes to `Update` is `web`, with the target annotation added to the annotations of
`web`; the claim requires the submitted object to be `ambassador`. -/
theorem C4_update_object_is_last_listed :
    Sync flatDecoder sampleKeys sampleSyncer clusterAmbassadorFirst =
      Exec.ret
        { hosts := ["a.example.com"], err := none
          updates := [("default",
            { name := "web"
              annotations := some
                ((AList.singleton sampleKeys.AmbassadorAnnotationKey
                    (mappingPayload "a.example.com")).insert
                  sampleKeys.ExternalDNSAnnotationKey "a.example.com") })] } := by
  decide

theorem foldl_scanService_flag (d : Decoder) (keys : Keys) (s : Syncer) (n : String)
    (l : List Service) (acc : ScanState d × Bool) :
    (l.foldl (scanService d keys s n) acc).2 =
      (acc.2 || l.any (fun x => decide (n = s.serviceNamespace ∧ x.name = s.serviceName))) := by
  induction l generalizing acc with
  | nil => simp
  | cons x t ih =>
    rw [List.foldl_cons, ih, List.any_cons]
    simp only [scanService, Bool.or_assoc]

theorem scanService_retains (d : Decoder) (keys : Keys) (s : Syncer) (n : String)
    (acc : ScanState d × Bool) (x : Service)
    (h : (scanService d keys s n acc x).2 = true) :
    (scanService d keys s n acc x).1.ambassadorService = some x := by
  simp only [scanService, Bool.or_eq_true, decide_eq_true_eq] at h
  simp only [scanService, scanAnnotations_ambassadorService]
  by_cases hm : n = s.serviceNamespace ∧ x.name = s.serviceName
  · simp [hm]
  · rcases h with h | h
    · simp [hm, h]
    · exact absurd h hm

/-- When some service of the configured namespace has the configured name, the service seen
through `ambassadorService` after that namespace's loop is the one listed last. -/
theorem scanItems_retains_last (d : Decoder) (keys : Keys) (s : Syncer)
    (front : List Service) (last : Service) (st : ScanState d)
    (h : ∃ x ∈ front ++ [last], x.name = s.serviceName) :
    (scanItems d keys s s.serviceNamespace st (front ++ [last])).ambassadorService =
      some last := by
  unfold scanItems
  rw [List.foldl_append, List.foldl_cons, List.foldl_nil]
  apply scanService_retains
  have hflag := foldl_scanService_flag d keys s s.serviceNamespace (front ++ [last]) (st, false)
  rw [List.foldl_append, List.foldl_cons, List.foldl_nil] at hflag
  rw [hflag]
  obtain ⟨x, hx, hname⟩ := h
  simp only [Bool.false_or, List.any_eq_true, decide_eq_true_eq]
  exact ⟨x, hx, by simp [hname]⟩

/-- The service `Sync` retains, diffs and submits is the last one listed in the configured
namespace, whichever service of that namespace has the configured name. -/
theorem scanNamespaces_retains_last (d : Decoder) (keys : Keys) (s : Syncer) (c : Client)
    (front : List Service) (last : Service)
    (hlist : c.listServices s.serviceNamespace = Except.ok (front ++ [last]))
    (hname : ∃ x ∈ front ++ [last], x.name = s.serviceName)
    (namespaces : List String) (st st1 : ScanState d)
    (hin : s.serviceNamespace ∈ namespaces ∨ st.ambassadorService = some last)
    (hs : scanNamespaces d keys s c namespaces st = Except.ok st1) :
    st1.ambassadorService = some last := by
  induction namespaces generalizing st with
  | nil =>
    simp only [scanNamespaces, Except.ok.injEq] at hs
    rcases hin with hin | hin
    · cases hin
    · exact hs ▸ hin
  | cons n rest ih =>
    simp only [scanNamespaces] at hs
    cases hl : c.listServices n with
    | error e => simp [hl] at hs
    | ok items =>
      rw [hl] at hs
      refine ih _ ?_ hs
      by_cases hn : n = s.serviceNamespace
      · right
        subst hn
        rw [hlist] at hl
        cases hl
        exact scanItems_retains_last d keys s front last st hname
      · rcases hin with hin | hin
        · left
          rcases List.mem_cons.mp hin with h1 | h1
          · exact absurd h1.symm hn
          · exact h1
        · right
          rw [scanItems_unmatched d keys s n items st (fun x _ hx => hn hx.1)]
          exact hin

/-! ## A service without an annotation map -/

/-- C10. Insert on a service without annotations, evaluated at `clusterNilAnnotations`: the
designated service is found, has a nil annotation map and AggregateValue is "a.example.com";
`Sync` panics at the assignment of line 164 and never reaches `Update`, where the claim requires
it to submit a mapping holding exactly the target key. -/
theorem C10_insert_into_nil_map_panics :
    Sync flatDecoder sampleKeys sampleSyncer clusterNilAnnotations =
      Exec.panic "assignment to entry in nil map" := by
  decide


/-- Whatever the decoder and the cluster: when the retained service has a nil annotation map and
AggregateValue is not empty, `Sync` panics. -/
theorem Sync_nil_map_panics (d : Decoder) (keys : Keys) (s : Syncer) (c : Client)
    (namespaces : List String) (st : ScanState d) (svc : Service)
    (hl : c.listNamespaces = Except.ok namespaces)
    (hs : scanNamespaces d keys s c namespaces (scanInit d) = Except.ok st)
    (ha : st.ambassadorService = some svc) (hnil : svc.annotations = none)
    (hv : (aggregate st.hosts).2 ≠ "") :
    Sync d keys s c = Exec.panic "assignment to entry in nil map" := by
  rw [Sync_of_scan d keys s c namespaces st hl hs, ha]
  have hd : diffStep keys svc.annotations (aggregate st.hosts).2 =
      Exec.panic "assignment to entry in nil map" := by
    rw [hnil]
    simp [diffStep, diffLoop, rangeMap, mapAssign, hv]
  simp only [hd]

/-! ## The designated service is missing -/

/-- C5. Missing designated resource: for every cluster listing that contains no service whose
namespace and name equal the configured ones, `Syncer.Sync` returns with a non-nil error and
without having issued an `Update`, so that the cluster afterwards is the cluster before; a tick
of `loop` that runs this pass with `needsSync` set leaves the `Syncer` unchanged, `needsSync`
still set, and the next tick, whatever the cluster answers then, runs a pass again. -/
theorem C5_missing_designated (d : Decoder) (keys : Keys) (s : Syncer) (c : Client)
    (h : ∀ namespaces, c.listNamespaces = Except.ok namespaces →
      s.serviceNamespace ∈ namespaces →
      ∀ items, c.listServices s.serviceNamespace = Except.ok items →
      ∀ x ∈ items, x.name ≠ s.serviceName) :
    ∃ r : SyncReturn,
      Sync d keys s c = Exec.ret r ∧ r.err ≠ none ∧ r.updates = [] ∧ c.afterSync r = c ∧
      (s.needsSync = true →
        Syncer.tick d keys s c = Exec.ret (s, [r]) ∧
        ∀ (c1 : Client) (r1 : SyncReturn), Sync d keys s c1 = Exec.ret r1 →
          ∃ s1, Syncer.tick d keys s c1 = Exec.ret (s1, [r1])) := by
  have htick : ∀ (c1 : Client) (r1 : SyncReturn), s.needsSync = true →
      Sync d keys s c1 = Exec.ret r1 →
      Syncer.tick d keys s c1 =
        Exec.ret (if r1.err = none then { s with needsSync := false } else s, [r1]) := by
    intro c1 r1 hn hr
    unfold Syncer.tick
    rw [if_pos hn, hr]
    cases he : r1.err <;> simp [he]
  have hfin : ∀ r : SyncReturn, Sync d keys s c = Exec.ret r → r.err ≠ none → r.updates = [] →
      Sync d keys s c = Exec.ret r ∧ r.err ≠ none ∧ r.updates = [] ∧ c.afterSync r = c ∧
      (s.needsSync = true →
        Syncer.tick d keys s c = Exec.ret (s, [r]) ∧
        ∀ (c1 : Client) (r1 : SyncReturn), Sync d keys s c1 = Exec.ret r1 →
          ∃ s1, Syncer.tick d keys s c1 = Exec.ret (s1, [r1])) := by
    intro r hr he hu
    refine ⟨hr, he, hu, ?_, fun hn => ⟨?_, fun c1 r1 hr1 => ⟨_, htick c1 r1 hn hr1⟩⟩⟩
    · simp [Client.afterSync, hu]
    · rw [htick c r hn hr, if_neg he]
  cases hl : c.listNamespaces with
  | error e =>
    exact ⟨_, hfin { hosts := [], err := some e, updates := [] } (by simp [Sync, hl])
      (by simp) rfl⟩
  | ok namespaces =>
    cases hs : scanNamespaces d keys s c namespaces (scanInit d) with
    | error e =>
      exact ⟨_, hfin { hosts := [], err := some e, updates := [] } (by simp [Sync, hl, hs])
        (by simp) rfl⟩
    | ok st =>
      have hnone : st.ambassadorService = none := by
        refine scanNamespaces_not_found d keys s c namespaces _ st ?_ rfl hs
        rintro n hn items hitems x hx ⟨hns, hname⟩
        subst hns
        exact h namespaces hl hn items hitems x hx hname
      refine ⟨_, hfin { hosts := (aggregate st.hosts).1, err := some errNotFound, updates := [] }
        ?_ ?_ rfl⟩
      · rw [Sync_of_scan d keys s c namespaces st hl hs, hnone]
      · simp

/-- The missing designated resource at `clusterWithoutAmbassador`, with `needsSync` set. -/
theorem C5_missing_designated_witness :
    (∀ namespaces, clusterWithoutAmbassador.listNamespaces = Except.ok namespaces →
      sampleSyncer.TriggerSync.serviceNamespace ∈ namespaces →
      ∀ items, clusterWithoutAmbassador.listServices sampleSyncer.TriggerSync.serviceNamespace =
        Except.ok items →
      ∀ x ∈ items, x.name ≠ sampleSyncer.TriggerSync.serviceName) ∧
    ∃ r : SyncReturn,
      Sync flatDecoder sampleKeys sampleSyncer.TriggerSync clusterWithoutAmbassador =
        Exec.ret r ∧
      r.err ≠ none ∧ r.updates = [] ∧ clusterWithoutAmbassador.afterSync r =
        clusterWithoutAmbassador ∧
      (sampleSyncer.TriggerSync.needsSync = true →
        Syncer.tick flatDecoder sampleKeys sampleSyncer.TriggerSync clusterWithoutAmbassador =
          Exec.ret (sampleSyncer.TriggerSync, [r]) ∧
        ∀ (c1 : Client) (r1 : SyncReturn),
          Sync flatDecoder sampleKeys sampleSyncer.TriggerSync c1 = Exec.ret r1 →
          ∃ s1, Syncer.tick flatDecoder sampleKeys sampleSyncer.TriggerSync c1 =
            Exec.ret (s1, [r1])) :=
  have hno : ∀ namespaces, clusterWithoutAmbassador.listNamespaces = Except.ok namespaces →
      sampleSyncer.TriggerSync.serviceNamespace ∈ namespaces →
      ∀ items, clusterWithoutAmbassador.listServices sampleSyncer.TriggerSync.serviceNamespace =
        Except.ok items →
      ∀ x ∈ items, x.name ≠ sampleSyncer.TriggerSync.serviceName := by
    intro namespaces _ _ items hitems x hx
    have hi : items = [mappingService "web" "a.example.com"] := by
      have h1 : clusterWithoutAmbassador.listServices sampleSyncer.TriggerSync.serviceNamespace
          = Except.ok [mappingService "web" "a.example.com"] := rfl
      rw [h1] at hitems
      exact (Except.ok.inj hitems).symm
    subst hi
    simp only [List.mem_singleton] at hx
    subst hx
    decide
  ⟨hno, C5_missing_designated flatDecoder sampleKeys sampleSyncer.TriggerSync
    clusterWithoutAmbassador hno⟩

/-! ## Two passes in a row -/

/-- What a returning diff leaves in the map: the target key bound to a non-empty `dnsValue` or
absent for the empty one, the other keys as they were. -/
theorem diffStep_ret (keys : Keys) (m m1 : Option AnnMap) (v : String) (needsUpdate : Bool)
    (h : diffStep keys m v = Exec.ret (m1, needsUpdate)) :
    mapLookup m1 keys.ExternalDNSAnnotationKey = (if v = "" then none else some v) ∧
    ∀ k, k ≠ keys.ExternalDNSAnnotationKey → mapLookup m1 k = mapLookup m k := by
  unfold diffStep at h
  rw [diffLoop_eq] at h
  cases m with
  | none =>
    have hl : mapLookup none keys.ExternalDNSAnnotationKey = none := rfl
    rw [hl] at h
    by_cases hv : v = ""
    · simp [hv] at h
      obtain ⟨rfl, _⟩ := h
      simp [hv, mapLookup]
    · simp [hv, mapAssign] at h
  | some m0 =>
    have hl : mapLookup (some m0) keys.ExternalDNSAnnotationKey =
        m0.lookup keys.ExternalDNSAnnotationKey := rfl
    have hlk : ∀ (x : AnnMap) (k : String), mapLookup (some x) k = x.lookup k := fun _ _ => rfl
    rw [hl] at h
    cases hw : m0.lookup keys.ExternalDNSAnnotationKey with
    | none =>
      by_cases hv : v = ""
      · simp [hw, hv] at h
        obtain ⟨rfl, _⟩ := h
        simp [hv, hl, hw]
      · simp [hw, hv, mapAssign] at h
        obtain ⟨rfl, _⟩ := h
        refine ⟨by simp [hv, hlk], fun k hk => ?_⟩
        rw [hlk, hlk, AList.lookup_insert_ne hk]
    | some w =>
      by_cases hv : v = ""
      · subst hv
        by_cases hw1 : w = ""
        · simp [hw, hw1, mapDelete] at h
          obtain ⟨rfl, _⟩ := h
          refine ⟨by simp [hlk], fun k hk => ?_⟩
          rw [hlk, hlk, AList.lookup_erase_ne hk]
        · simp [hw, hw1, mapDelete] at h
          obtain ⟨rfl, _⟩ := h
          refine ⟨by simp [hlk], fun k hk => ?_⟩
          rw [hlk, hlk, AList.lookup_erase_ne hk, AList.lookup_insert_ne hk]
      · by_cases hw1 : w = v
        · simp [hw, hv, hw1] at h
          obtain ⟨rfl, _⟩ := h
          refine ⟨by simp [hv, hl, hw, hw1], fun _ _ => rfl⟩
        · simp [hw, hv, hw1] at h
          obtain ⟨rfl, _⟩ := h
          refine ⟨by simp [hv, hlk], fun k hk => ?_⟩
          rw [hlk, hlk, AList.lookup_insert_ne hk]

/-- The retained service was listed in the configured namespace. -/
theorem scanItems_retained_mem (d : Decoder) (keys : Keys) (s : Syncer) (n : String)
    (items : List Service) (st : ScanState d) (P : Service → Prop)
    (hst : ∀ svc, st.ambassadorService = some svc → P svc)
    (hitems : n = s.serviceNamespace → ∀ x ∈ items, P x) :
    ∀ svc, (scanItems d keys s n st items).ambassadorService = some svc → P svc := by
  unfold scanItems
  suffices hgen : ∀ (l : List Service) (acc : ScanState d × Bool),
      (∀ svc, acc.1.ambassadorService = some svc → P svc) →
      (acc.2 = true → n = s.serviceNamespace) →
      (n = s.serviceNamespace → ∀ x ∈ l, P x) →
      ∀ svc, (l.foldl (scanService d keys s n) acc).1.ambassadorService = some svc → P svc from
    hgen items (st, false) hst (fun h => by cases h) hitems
  intro l
  induction l with
  | nil => intro acc h _ _; exact h
  | cons x t ih =>
    intro acc hacc hal hl
    rw [List.foldl_cons]
    refine ih _ ?_ ?_ (fun hn y hy => hl hn y (List.mem_cons_of_mem x hy))
    · intro svc hsvc
      simp only [scanService, scanAnnotations_ambassadorService] at hsvc
      by_cases hm : n = s.serviceNamespace ∧ x.name = s.serviceName
      · simp only [hm, and_self, decide_True, if_true] at hsvc
        cases hsvc
        exact hl hm.1 x (List.mem_cons_self x t)
      · simp only [hm, decide_False, Bool.false_eq_true, if_false] at hsvc
        by_cases ha : acc.2 = true
        · simp only [ha, if_true] at hsvc
          cases hsvc
          exact hl (hal ha) x (List.mem_cons_self x t)
        · simp only [ha, if_false] at hsvc
          exact hacc svc hsvc
    · intro h
      simp only [scanService, Bool.or_eq_true, decide_eq_true_eq] at h
      rcases h with h | h
      · exact hal h
      · exact h.1

theorem scanNamespaces_retained_mem (d : Decoder) (keys : Keys) (s : Syncer) (c : Client)
    (namespaces : List String) (st st1 : ScanState d) (P : Service → Prop)
    (hst : ∀ svc, st.ambassadorService = some svc → P svc)
    (hP : ∀ items, c.listServices s.serviceNamespace = Except.ok items → ∀ x ∈ items, P x)
    (hs : scanNamespaces d keys s c namespaces st = Except.ok st1) :
    ∀ svc, st1.ambassadorService = some svc → P svc := by
  induction namespaces generalizing st with
  | nil =>
    simp only [scanNamespaces, Except.ok.injEq] at hs
    exact hs ▸ hst
  | cons n rest ih =>
    simp only [scanNamespaces] at hs
    cases hl : c.listServices n with
    | error e => simp [hl] at hs
    | ok items =>
      rw [hl] at hs
      refine ih _ ?_ hs
      exact scanItems_retained_mem d keys s n items st P hst
        (fun hn => hP items (hn ▸ hl))

theorem scanEntry_mapRetained (d : Decoder) (keys : Keys) (f : Service → Service)
    (st : ScanState d) (k v : String) :
    scanEntry d keys (mapRetained f st) k v = mapRetained f (scanEntry d keys st k v) := by
  unfold scanEntry mapRetained
  dsimp only
  split_ifs <;> rfl

theorem scanAnnotations_mapRetained (d : Decoder) (keys : Keys) (f : Service → Service)
    (st : ScanState d) (m : Option AnnMap) :
    scanAnnotations d keys (mapRetained f st) m =
      mapRetained f (scanAnnotations d keys st m) := by
  rw [scanAnnotations_eq, scanAnnotations_eq]
  cases mapLookup m keys.AmbassadorAnnotationKey with
  | none => rfl
  | some v => exact scanEntry_mapRetained d keys f st _ v

/-- One iteration on the replaced item runs like the iteration on the item. -/
theorem scanService_replaced (d : Decoder) (keys : Keys) (s : Syncer) (n : String)
    (f : Service → Service) (acc : ScanState d × Bool) (x : Service)
    (hname : (f x).name = x.name)
    (hsrc : mapLookup (f x).annotations keys.AmbassadorAnnotationKey =
      mapLookup x.annotations keys.AmbassadorAnnotationKey) :
    scanService d keys s n (mapRetained f acc.1, acc.2) (f x) =
      (mapRetained f (scanService d keys s n acc x).1, (scanService d keys s n acc x).2) := by
  unfold scanService
  simp only [hname]
  rw [scanAnnotations_eq d keys _ (f x).annotations, hsrc, ← scanAnnotations_eq]
  refine Prod.ext ?_ rfl
  simp only
  rw [← scanAnnotations_mapRetained]
  congr 1
  by_cases ha : acc.2 = true <;>
    by_cases hm : n = s.serviceNamespace ∧ x.name = s.serviceName <;>
    simp [ha, hm, mapRetained]

theorem scanItems_replaced (d : Decoder) (keys : Keys) (s : Syncer) (n : String)
    (f : Service → Service) (items : List Service) (st : ScanState d)
    (h : ∀ x ∈ items, (f x).name = x.name ∧
      mapLookup (f x).annotations keys.AmbassadorAnnotationKey =
        mapLookup x.annotations keys.AmbassadorAnnotationKey) :
    scanItems d keys s n (mapRetained f st) (items.map f) =
      mapRetained f (scanItems d keys s n st items) := by
  unfold scanItems
  suffices hgen : ∀ (l : List Service) (acc : ScanState d × Bool),
      (∀ x ∈ l, (f x).name = x.name ∧
        mapLookup (f x).annotations keys.AmbassadorAnnotationKey =
          mapLookup x.annotations keys.AmbassadorAnnotationKey) →
      (l.map f).foldl (scanService d keys s n) (mapRetained f acc.1, acc.2) =
        (mapRetained f (l.foldl (scanService d keys s n) acc).1,
          (l.foldl (scanService d keys s n) acc).2) by
    rw [hgen items (st, false) h]
  intro l
  induction l with
  | nil => intro acc _; rfl
  | cons x t ih =>
    intro acc hl
    obtain ⟨h1, h2⟩ := hl x (List.mem_cons_self x t)
    rw [List.map_cons, List.foldl_cons, List.foldl_cons,
      scanService_replaced d keys s n f acc x h1 h2,
      ih _ (fun y hy => hl y (List.mem_cons_of_mem x hy))]

/-- In another namespace the retained service is not touched. -/
theorem scanItems_elsewhere (d : Decoder) (keys : Keys) (s : Syncer) (n : String)
    (f : Service → Service) (items : List Service) (st : ScanState d)
    (hn : n ≠ s.serviceNamespace) :
    scanItems d keys s n (mapRetained f st) items =
      mapRetained f (scanItems d keys s n st items) := by
  unfold scanItems
  suffices hgen : ∀ (l : List Service) (st0 : ScanState d),
      l.foldl (scanService d keys s n) (mapRetained f st0, false) =
        (mapRetained f (l.foldl (scanService d keys s n) (st0, false)).1, false) by
    rw [hgen items st]
  intro l
  induction l with
  | nil => intro st0; rfl
  | cons x t ih =>
    intro st0
    have hstep : ∀ st1 : ScanState d, scanService d keys s n (st1, false) x =
        (scanAnnotations d keys st1 x.annotations, false) := by
      intro st1; simp [scanService, hn]
    rw [List.foldl_cons, List.foldl_cons, hstep, hstep, scanAnnotations_mapRetained, ih]

/-- The scan of the cluster in which the services of the configured namespace have been replaced
through `f`, a replacement that keeps names and source annotations. -/
theorem scanNamespaces_replaced (d : Decoder) (keys : Keys) (s : Syncer) (c c1 : Client)
    (f : Service → Service)
    (hc1 : ∀ n, c1.listServices n =
      if n = s.serviceNamespace then (c.listServices n).map (fun items => items.map f)
      else c.listServices n)
    (hf : ∀ items, c.listServices s.serviceNamespace = Except.ok items →
      ∀ x ∈ items, (f x).name = x.name ∧
        mapLookup (f x).annotations keys.AmbassadorAnnotationKey =
          mapLookup x.annotations keys.AmbassadorAnnotationKey)
    (namespaces : List String) (st st1 : ScanState d)
    (hs : scanNamespaces d keys s c namespaces st = Except.ok st1) :
    scanNamespaces d keys s c1 namespaces (mapRetained f st) =
      Except.ok (mapRetained f st1) := by
  induction namespaces generalizing st with
  | nil =>
    simp only [scanNamespaces, Except.ok.injEq] at hs
    simp [scanNamespaces, hs]
  | cons n rest ih =>
    simp only [scanNamespaces] at hs ⊢
    cases hl : c.listServices n with
    | error e => simp [hl] at hs
    | ok items =>
      rw [hl] at hs
      by_cases hn : n = s.serviceNamespace
      · have hl1 : c1.listServices n = Except.ok (items.map f) := by
          rw [hc1 n, if_pos hn, hl]; rfl
        rw [hl1]
        simp only
        rw [scanItems_replaced d keys s n f items st (hf items (hn ▸ hl))]
        exact ih _ hs
      · have hl1 : c1.listServices n = Except.ok items := by
          rw [hc1 n, if_neg hn, hl]
        rw [hl1]
        simp only
        rw [scanItems_elsewhere d keys s n f items st hn]
        exact ih _ hs

/-- A pass that issued an `Update` and returned no error, followed by a pass on the updated
cluster. -/
theorem Sync_after_update (d : Decoder) (keys : Keys) (s : Syncer) (c : Client)
    (hkeys : keys.AmbassadorAnnotationKey ≠ keys.ExternalDNSAnnotationKey)
    (huniq : c.UniqueNames) (namespaces : List String) (st : ScanState d)
    (svc : Service) (annotations : Option AnnMap)
    (hl : c.listNamespaces = Except.ok namespaces)
    (hs : scanNamespaces d keys s c namespaces (scanInit d) = Except.ok st)
    (ha : st.ambassadorService = some svc)
    (hd : diffStep keys svc.annotations (aggregate st.hosts).2 = Exec.ret (annotations, true)) :
    scanNamespaces d keys s
        (c.applyUpdate s.serviceNamespace { svc with annotations := annotations })
        namespaces (scanInit d) =
      Except.ok (mapRetained
        (fun x => if x.name = svc.name then { svc with annotations := annotations } else x) st) ∧
    Sync d keys s (c.applyUpdate s.serviceNamespace { svc with annotations := annotations }) =
      Exec.ret { hosts := (aggregate st.hosts).1, err := none, updates := [] } := by
  obtain ⟨hdns, hother⟩ := diffStep_ret keys _ _ _ _ hd
  have hmem : ∃ items, c.listServices s.serviceNamespace = Except.ok items ∧ svc ∈ items := by
    refine scanNamespaces_retained_mem d keys s c namespaces (scanInit d) st
      (fun x => ∃ items, c.listServices s.serviceNamespace = Except.ok items ∧ x ∈ items)
      ?_ ?_ hs svc ha
    · intro x hx; cases hx
    · intro items hitems x hx; exact ⟨items, hitems, hx⟩
  obtain ⟨items0, hitems0, hsvc0⟩ := hmem
  have hscan := scanNamespaces_replaced d keys s c
    (c.applyUpdate s.serviceNamespace { svc with annotations := annotations })
    (fun x => if x.name = svc.name then { svc with annotations := annotations } else x)
    (fun n => rfl) ?_ namespaces (scanInit d) st hs
  · have hscan1 : scanNamespaces d keys s
        (c.applyUpdate s.serviceNamespace { svc with annotations := annotations })
        namespaces (scanInit d) =
        Except.ok (mapRetained
          (fun x => if x.name = svc.name then { svc with annotations := annotations } else x)
          st) := hscan
    refine ⟨hscan1, ?_⟩
    have hl1 : (c.applyUpdate s.serviceNamespace
        { svc with annotations := annotations }).listNamespaces = Except.ok namespaces := hl
    rw [Sync_of_scan d keys s _ namespaces _ hl1 hscan1]
    have hamb : (mapRetained
        (fun x => if x.name = svc.name then { svc with annotations := annotations } else x)
        st).ambassadorService = some { svc with annotations := annotations } := by
      simp [mapRetained, ha]
    have hhosts : (mapRetained
        (fun x => if x.name = svc.name then { svc with annotations := annotations } else x)
        st).hosts = st.hosts := rfl
    rw [hamb, hhosts]
    have hsettled : diffStep keys annotations (aggregate st.hosts).2 =
        Exec.ret (annotations, false) := by
      apply diffStep_settled
      by_cases hv : (aggregate st.hosts).2 = ""
      · right; rw [hdns, if_pos hv]; exact ⟨rfl, hv⟩
      · left; rw [hdns, if_neg hv]; exact ⟨rfl, hv⟩
    simp only [hsettled]
    rfl
  · intro items hitems x hx
    have hi : items = items0 := by
      rw [hitems0] at hitems
      exact (Except.ok.inj hitems).symm
    subst hi
    by_cases hx1 : x.name = svc.name
    · have hxs : x = svc :=
        List.inj_on_of_nodup_map (huniq _ _ hitems0) hx hsvc0 hx1
      subst hxs
      dsimp only
      rw [if_pos rfl]
      exact ⟨rfl, hother _ hkeys⟩
    · dsimp only
      rw [if_neg hx1]
      exact ⟨rfl, rfl⟩

/-- C6. Idempotence of `Syncer.Sync`: for every cluster state on which a first `Sync` returns
without error, its `Update` (if one was issued) being applied to the cluster, a second `Sync`
run on the resulting cluster returns the same host list, issues no `Update` and returns no
error, and the scans of the two runs yield the same host list and AggregateValue. The source
and target annotation keys are distinct and service names are unique inside a namespace. -/
theorem C6_idempotent (d : Decoder) (keys : Keys) (s : Syncer) (c : Client) (r1 : SyncReturn)
    (hkeys : keys.AmbassadorAnnotationKey ≠ keys.ExternalDNSAnnotationKey)
    (huniq : c.UniqueNames)
    (h1 : Sync d keys s c = Exec.ret r1) (herr : r1.err = none) :
    Sync d keys s (c.afterSync r1) =
      Exec.ret { hosts := r1.hosts, err := none, updates := [] } ∧
    ∀ (namespaces : List String) (st1 st2 : ScanState d),
      c.listNamespaces = Except.ok namespaces →
      scanNamespaces d keys s c namespaces (scanInit d) = Except.ok st1 →
      scanNamespaces d keys s (c.afterSync r1) namespaces (scanInit d) = Except.ok st2 →
      aggregate st2.hosts = aggregate st1.hosts := by
  cases hl : c.listNamespaces with
  | error e =>
    simp only [Sync, hl, Exec.ret.injEq] at h1
    rw [← h1] at herr
    cases herr
  | ok namespaces =>
    cases hs : scanNamespaces d keys s c namespaces (scanInit d) with
    | error e =>
      simp only [Sync, hl, hs, Exec.ret.injEq] at h1
      rw [← h1] at herr
      cases herr
    | ok st =>
      rw [Sync_of_scan d keys s c namespaces st hl hs] at h1
      have key : ∃ f : Service → Service,
          scanNamespaces d keys s (c.afterSync r1) namespaces (scanInit d) =
            Except.ok (mapRetained f st) ∧
          Sync d keys s (c.afterSync r1) =
            Exec.ret { hosts := r1.hosts, err := none, updates := [] } := by
        cases ha : st.ambassadorService with
        | none =>
          simp only [ha, Exec.ret.injEq] at h1
          rw [← h1] at herr
          cases herr
        | some svc =>
          simp only [ha] at h1
          cases hd : diffStep keys svc.annotations (aggregate st.hosts).2 with
          | panic msg => simp [hd] at h1
          | blocked => simp [hd] at h1
          | ret p =>
            obtain ⟨annotations, needsUpdate⟩ := p
            simp only [hd] at h1
            cases needsUpdate with
            | true =>
              simp only [if_true] at h1
              cases hu : c.update s.serviceNamespace { svc with annotations := annotations } with
              | some e =>
                simp only [hu, Exec.ret.injEq] at h1
                rw [← h1] at herr
                cases herr
              | none =>
                simp only [hu, Exec.ret.injEq] at h1
                have hafter : c.afterSync r1 =
                    c.applyUpdate s.serviceNamespace { svc with annotations := annotations } := by
                  rw [← h1]
                  simp [Client.afterSync, hu]
                obtain ⟨hscan, hsync⟩ := Sync_after_update d keys s c hkeys huniq namespaces st
                  svc annotations hl hs ha hd
                rw [hafter]
                refine ⟨_, hscan, ?_⟩
                rw [hsync, ← h1]
            | false =>
              simp only [Bool.false_eq_true, if_false, Exec.ret.injEq] at h1
              have hafter : c.afterSync r1 = c := by
                rw [← h1]; rfl
              rw [hafter]
              refine ⟨id, ?_, ?_⟩
              · rw [hs]
                congr 1
                simp [mapRetained]
              · rw [Sync_of_scan d keys s c namespaces st hl hs, ha]
                simp only [hd]
                rw [← h1]
                rfl
      obtain ⟨f, hscan, hsync⟩ := key
      refine ⟨hsync, ?_⟩
      intro namespaces1 st1 st2 hn hs1 hs2
      cases hn
      rw [hs] at hs1
      rw [hscan] at hs2
      cases hs1
      cases hs2
      rfl

theorem clusterPending_uniqueNames : clusterPending.UniqueNames := by
  intro n items h
  have hi : items = (List.lookup n [("default",
      [mappingService "web" "a.example.com",
       ({ name := "ambassador", annotations := some ∅ } : Service)])]).getD [] :=
    (Except.ok.inj h).symm
  subst hi
  by_cases hn : n = "default"
  · subst hn; decide
  · have hb : (n == "default") = false := by simpa using hn
    simp [List.lookup, hb]

/-- Idempotence at `clusterPending`: the first pass inserts the target annotation with one
`Update`, the second pass on the updated cluster returns the same hosts and issues none. -/
theorem C6_idempotent_witness :
    sampleKeys.AmbassadorAnnotationKey ≠ sampleKeys.ExternalDNSAnnotationKey ∧
    clusterPending.UniqueNames ∧
    ∃ r1 : SyncReturn,
      Sync flatDecoder sampleKeys sampleSyncer clusterPending = Exec.ret r1 ∧
      r1.err = none ∧
      r1.hosts = ["a.example.com"] ∧
      r1.updates.length = 1 ∧
      Sync flatDecoder sampleKeys sampleSyncer (clusterPending.afterSync r1) =
        Exec.ret { hosts := r1.hosts, err := none, updates := [] } :=
  ⟨by decide, clusterPending_uniqueNames, _, rfl, rfl, rfl, rfl,
    (C6_idempotent flatDecoder sampleKeys sampleSyncer clusterPending _ (by decide)
      clusterPending_uniqueNames rfl rfl).1⟩

/-! ## The pending flag -/

theorem TriggerSync_iterate (s : Syncer) (n : Nat) (hn : 1 ≤ n) :
    Syncer.TriggerSync^[n] s = s.TriggerSync := by
  induction n with
  | zero => omega
  | succ k ih =>
    rw [Function.iterate_succ_apply']
    rcases Nat.eq_zero_or_pos k with hk | hk
    · subst hk; rfl
    · rw [ih hk]; rfl

theorem tick_unset (d : Decoder) (keys : Keys) (s : Syncer) (c : Client)
    (h : s.needsSync = false) : Syncer.tick d keys s c = Exec.ret (s, []) := by
  simp [Syncer.tick, h]

theorem ticks_unset (d : Decoder) (keys : Keys) (s : Syncer) (cs : List Client)
    (h : s.needsSync = false) : Syncer.ticks d keys s cs = Exec.ret (s, []) := by
  induction cs with
  | nil => rfl
  | cons c rest ih => simp [Syncer.ticks, tick_unset d keys s c h, ih]

/-- C7. Debouncing: for every N ≥ 1, N calls of `Syncer.TriggerSync` leave the `Syncer` in the
state one call leaves it in; the next tick of `loop` then makes exactly one `Sync` call; if
that pass returns without error `needsSync` is cleared, and every later sequence of ticks with
no new `TriggerSync` makes no `Sync` call and leaves the `Syncer` unchanged; a tick with
`needsSync` unset makes no `Sync` call. -/
theorem C7_debounce (d : Decoder) (keys : Keys) (s : Syncer) (n : Nat) (hn : 1 ≤ n) :
    Syncer.TriggerSync^[n] s = s.TriggerSync ∧
    (∀ (c : Client) (r : SyncReturn),
      Sync d keys (Syncer.TriggerSync^[n] s) c = Exec.ret r →
      ∃ s1, Syncer.tick d keys (Syncer.TriggerSync^[n] s) c = Exec.ret (s1, [r]) ∧
        (r.err = none → s1.needsSync = false ∧
          ∀ cs : List Client, Syncer.ticks d keys s1 cs = Exec.ret (s1, []))) ∧
    (∀ (s0 : Syncer) (c : Client), s0.needsSync = false →
      Syncer.tick d keys s0 c = Exec.ret (s0, [])) := by
  refine ⟨TriggerSync_iterate s n hn, ?_, fun s0 c h => tick_unset d keys s0 c h⟩
  intro c r hr
  rw [TriggerSync_iterate s n hn] at hr ⊢
  have hset : s.TriggerSync.needsSync = true := rfl
  cases he : r.err with
  | some e =>
    refine ⟨s.TriggerSync, ?_, fun h => by cases h⟩
    simp [Syncer.tick, hset, hr, he]
  | none =>
    refine ⟨{ s.TriggerSync with needsSync := false }, ?_, fun _ => ⟨rfl, fun cs => ?_⟩⟩
    · simp [Syncer.tick, hset, hr, he]
    · exact ticks_unset d keys _ cs rfl

/-- Debouncing for three calls of `TriggerSync` before a tick on `clusterSettled`. -/
theorem C7_debounce_witness :
    1 ≤ 3 ∧
    Syncer.TriggerSync^[3] sampleSyncer = sampleSyncer.TriggerSync ∧
    ∃ (r : SyncReturn) (s1 : Syncer),
      Sync flatDecoder sampleKeys (Syncer.TriggerSync^[3] sampleSyncer) clusterSettled =
        Exec.ret r ∧
      r.err = none ∧
      Syncer.tick flatDecoder sampleKeys (Syncer.TriggerSync^[3] sampleSyncer) clusterSettled =
        Exec.ret (s1, [r]) ∧
      s1.needsSync = false ∧
      Syncer.ticks flatDecoder sampleKeys s1 [clusterSettled, clusterBAAC] =
        Exec.ret (s1, []) :=
  ⟨by decide, (C7_debounce flatDecoder sampleKeys sampleSyncer 3 (by decide)).1,
    _, _, rfl, rfl, rfl, rfl, rfl⟩

/-! ## Lifecycle -/

/-- C8. Watcher lifecycle state, evaluated on a new `Watcher`: `IsRunning` is false at first and
true after a successful `Start`, but it is still true after a successful `Stop`, and the `Start`
that follows returns `ErrAlreadyRunning`; the claim requires false after `Stop` and a successful
restart. -/
theorem C8_watcher_still_running_after_stop :
    (NewWatcher "default" "ambassador").IsRunning = false ∧
    ∃ (w1 w2 : Watcher) (e1 e2 : List Effect),
      (NewWatcher "default" "ambassador").Start = (w1, none, e1) ∧
      w1.IsRunning = true ∧
      w1.Stop = Exec.ret (w2, none, e2) ∧
      w2.IsRunning = true ∧
      w2.syncer.IsRunning = false ∧
      w2.Start = (w2, some Error.ErrAlreadyRunning, []) :=
  ⟨rfl, _, _, _, _, rfl, rfl, rfl, rfl, rfl, rfl⟩

/-- A returning `Watcher.Stop` leaves the field `running` as it found it. -/
theorem Watcher.Stop_running (w w1 : Watcher) (e : Option Error) (eff : List Effect)
    (h : w.Stop = Exec.ret (w1, e, eff)) : w1.running = w.running := by
  unfold Watcher.Stop at h
  split_ifs at h with hr
  · cases h; rfl
  · split at h
    · cases h
    · cases h
    · cases h; rfl
    · split at h
      · cases h
      · cases h
      · split at h
        · cases h; rfl
        · cases h

theorem Syncer.Stop_ok (s s1 : Syncer) (eff : List Effect)
    (h : s.Stop = Exec.ret (s1, none, eff)) : s1.running = false := by
  unfold Syncer.Stop at h
  split_ifs at h with hr
  · cases h
  · split at h
    · cases h
    · cases h
    · split at h
      · cases h
      · cases h; rfl

/-- C9. Lifecycle misuse errors. For `Syncer` and for `Watcher`: `Start` on a running component,
in particular right after a successful `Start`, returns `ErrAlreadyRunning`; `Stop` on a
component that is not running, and the second of two consecutive `Stop` calls, returns
`ErrNotRunning`; each of these calls leaves the component equal to what it was and has no
effect (no channel made or closed, no goroutine started). -/
theorem C9_lifecycle_misuse :
    (∀ s : Syncer, s.running = true → s.Start = (s, some Error.ErrAlreadyRunning, [])) ∧
    (∀ (s s1 : Syncer) (eff : List Effect), s.Start = (s1, none, eff) →
      s1.Start = (s1, some Error.ErrAlreadyRunning, [])) ∧
    (∀ s : Syncer, s.running = false → s.Stop = Exec.ret (s, some Error.ErrNotRunning, [])) ∧
    (∀ (s s1 : Syncer) (eff : List Effect), s.Stop = Exec.ret (s1, none, eff) →
      s1.Stop = Exec.ret (s1, some Error.ErrNotRunning, [])) ∧
    (∀ w : Watcher, w.running = true → w.Start = (w, some Error.ErrAlreadyRunning, [])) ∧
    (∀ (w w1 : Watcher) (eff : List Effect), w.Start = (w1, none, eff) →
      w1.Start = (w1, some Error.ErrAlreadyRunning, [])) ∧
    (∀ w : Watcher, w.running = false → w.Stop = Exec.ret (w, some Error.ErrNotRunning, [])) ∧
    (∀ (w w1 : Watcher) (eff : List Effect), w.Stop = Exec.ret (w1, none, eff) →
      w1.Stop = Exec.ret (w1, some Error.ErrNotRunning, [])) := by
  have hS1 : ∀ s : Syncer, s.running = true →
      s.Start = (s, some Error.ErrAlreadyRunning, []) := by
    intro s h; simp [Syncer.Start, h]
  have hS3 : ∀ s : Syncer, s.running = false →
      s.Stop = Exec.ret (s, some Error.ErrNotRunning, []) := by
    intro s h; simp [Syncer.Stop, h]
  have hW1 : ∀ w : Watcher, w.running = true →
      w.Start = (w, some Error.ErrAlreadyRunning, []) := by
    intro w h; simp [Watcher.Start, h]
  have hW3 : ∀ w : Watcher, w.running = false →
      w.Stop = Exec.ret (w, some Error.ErrNotRunning, []) := by
    intro w h; simp [Watcher.Stop, h]
  refine ⟨hS1, ?_, hS3, ?_, hW1, ?_, hW3, ?_⟩
  · intro s s1 eff h
    apply hS1
    unfold Syncer.Start at h
    split_ifs at h with hr
    · simp at h
    · simp only [Prod.mk.injEq] at h
      rw [← h.1]
  · intro s s1 eff h
    exact hS3 s1 (Syncer.Stop_ok s s1 eff h)
  · intro w w1 eff h
    apply hW1
    unfold Watcher.Start at h
    split_ifs at h with hr
    · simp at h
    · split at h
      · simp at h
      · simp only [Prod.mk.injEq] at h
        rw [← h.1]
  · intro w w1 eff h
    unfold Watcher.Stop at h
    split_ifs at h with hr
    · cases h
    · split at h
      · cases h
      · cases h
      · cases h
      · rename_i s1 effects hs
        have hs1 : s1.running = false := Syncer.Stop_ok _ _ _ hs
        split at h
        · cases h
        · cases h
        · split at h
          · cases h
            simp at hr
            simp [Watcher.Stop, hr, hS3 s1 hs1]
          · cases h

/-- The lifecycle misuse errors on a `Syncer` and a `Watcher` created, started and stopped. -/
theorem C9_lifecycle_misuse_witness :
    ((NewSyncer "default" "ambassador").Start.1.running = true ∧
      (NewSyncer "default" "ambassador").Start.1.Start =
        ((NewSyncer "default" "ambassador").Start.1, some Error.ErrAlreadyRunning, [])) ∧
    ((NewSyncer "default" "ambassador").running = false ∧
      (NewSyncer "default" "ambassador").Stop =
        Exec.ret (NewSyncer "default" "ambassador", some Error.ErrNotRunning, [])) ∧
    ((NewWatcher "default" "ambassador").Start.1.running = true ∧
      (NewWatcher "default" "ambassador").Start.1.Start =
        ((NewWatcher "default" "ambassador").Start.1, some Error.ErrAlreadyRunning, [])) ∧
    ((NewWatcher "default" "ambassador").running = false ∧
      (NewWatcher "default" "ambassador").Stop =
        Exec.ret (NewWatcher "default" "ambassador", some Error.ErrNotRunning, [])) ∧
    (∃ (s1 : Syncer) (eff : List Effect),
      (NewSyncer "default" "ambassador").Start.1.Stop = Exec.ret (s1, none, eff) ∧
      s1.Stop = Exec.ret (s1, some Error.ErrNotRunning, [])) ∧
    (∃ (w1 : Watcher) (eff : List Effect),
      (NewWatcher "default" "ambassador").Start.1.Stop = Exec.ret (w1, none, eff) ∧
      w1.Stop = Exec.ret (w1, some Error.ErrNotRunning, [])) :=
  ⟨⟨rfl, C9_lifecycle_misuse.1 _ rfl⟩, ⟨rfl, C9_lifecycle_misuse.2.2.1 _ rfl⟩,
    ⟨rfl, C9_lifecycle_misuse.2.2.2.2.1 _ rfl⟩,
    ⟨rfl, C9_lifecycle_misuse.2.2.2.2.2.2.1 _ rfl⟩,
    ⟨_, _, rfl, C9_lifecycle_misuse.2.2.2.1 (NewSyncer "default" "ambassador").Start.1 _ _ rfl⟩,
    ⟨_, _, rfl,
      C9_lifecycle_misuse.2.2.2.2.2.2.2 (NewWatcher "default" "ambassador").Start.1 _ _ rfl⟩⟩

end ExternalAmbassador
